import Mathlib

/-!
# aesdsocket: a shallow embedding of `server/src/aesdsocket.c`

The server accepts one TCP connection at a time, stores every received chunk in a
128-slot table of 256-byte buffers, and whenever a received chunk contains a
linefeed writes the stored chunks to the log file and streams the whole log back.

Process-wide variables of the C file are the fields of `State`.  Calls that act on
the outside world (close, remove, send, the append session on the log file) are
recorded in order in `State.effects`.  What the outside world hands to the program
(results of `calloc`, `recv`, `accept`, a failing `fread`, a delivered signal) is an
explicit input of the step functions.  Of the diagnostic output only the error report
of `logAndExit` is recorded; `fopen`, `fwrite`, `send` and `close` have no failure
branch in the source and are taken to succeed.  The start of `main` is modelled from
the `socket` call on; the optional detaching from the terminal before it is not.
-/

namespace AesdSocket

/-! ## Constants -/

/-- Size of one receive buffer (`#define BUFFER_SIZE 256`). -/
def BUFFER_SIZE : Nat := 256

/-- Number of slots of the `bufferPacket` table (`static char* bufferPacket[128]`). -/
def SLOT_COUNT : Nat := 128

/-- The linefeed character. -/
def NEWLINE : Nat := 10

/-- Value of `EINTR` in `errno.h` on Linux. -/
def EINTR : Int := 4

/-- Value of `EXIT_SUCCESS` in `stdlib.h`. -/
def EXIT_SUCCESS : Int := 0

/-- Value of `EXIT_FAILURE` in `stdlib.h`. -/
def EXIT_FAILURE : Int := 1

/-! ## Data model -/

/-- Calls on the outside world, in the order the program makes them. -/
inductive Effect where
  /-- A `close(fd)` call. -/
  | close (fd : Int)
  /-- A `remove("/var/tmp/aesdsocketdata")` call. -/
  | remove
  /-- One `fopen(.., "a")` .. `fclose` session; `bytes` is everything `fwrite` wrote. -/
  | append (bytes : List Nat)
  /-- A `send(fd, bufferSend, bytesRead, 0)` call with the bytes handed over. -/
  | send (fd : Int) (block : List Nat)
  /-- A `recv(fd, buffer, BUFFER_SIZE - 1, 0)` call. -/
  | recv (fd : Int)
  /-- The error report of `logAndExit` (`syslog(LOG_ERR, ..)` and `perror`) for `msg`. -/
  | logError (msg : List Nat)
  deriving DecidableEq, Repr

/-- The process-wide variables of the program together with the log file. -/
structure State where
  /-- The flag `stop`, set by the signal handlers. -/
  stop : Bool
  /-- The descriptor `newSockFd` of the accepted connection. -/
  newSockFd : Int
  /-- The descriptor `serverSockFd` of the listening socket. -/
  serverSockFd : Int
  /-- The table `bufferPacket`: `none` is a `NULL` slot, `some b` points to the 256 bytes `b`. -/
  bufferPacket : List (Option (List Nat))
  /-- The counter `bufferPacketIndex` (a `uint8_t`). -/
  bufferPacketIndex : Nat
  /-- Content of `/var/tmp/aesdsocketdata`; `none` when the file does not exist. -/
  log : Option (List Nat)
  /-- The calls made so far. -/
  effects : List Effect
  /-- The indices at which the statement `bufferPacket[..] = buffer` has written into
  the table so far, in order. -/
  stores : List Nat
  deriving DecidableEq, Repr

/-- The table with all slots `NULL` (the initialiser `= {NULL}`). -/
def emptyTable : List (Option (List Nat)) := List.replicate SLOT_COUNT none

/-- What `recv` hands back: a failure with its `errno`, or the bytes the peer has
delivered (`[]` when the peer has closed the connection). -/
inductive RecvResult where
  | error (errno : Int)
  | data (avail : List Nat)
  deriving DecidableEq, Repr

/-- Inputs of one iteration of the receive loop. -/
structure IterInput where
  /-- Whether `calloc` returned a buffer. -/
  calloc : Bool
  /-- Result of the `recv` call (consulted only when the call is made). -/
  recv : RecvResult
  /-- When `some n`: reading the log back fails after `n` bytes have been read. -/
  freadError : Option Nat
  deriving DecidableEq, Repr

/-- How one iteration of the receive loop ends. -/
inductive Outcome where
  /-- The loop body ran to its end; the receive loop iterates again. -/
  | next (s : State)
  /-- The `break` after a zero-length receive: control is back in the accept loop. -/
  | closed (s : State)
  /-- The process has called `exit(code)`. -/
  | terminated (code : Int) (s : State)
  deriving DecidableEq, Repr

/-- Control points of `main` between two inputs. -/
inductive Loc where
  /-- Blocked in `accept`. -/
  | accepting
  /-- Inside the receive loop of an accepted connection. -/
  | receiving
  /-- The process has ended with the given status. -/
  | exited (code : Int)
  deriving DecidableEq, Repr

/-- A control point together with the program variables. -/
structure Config where
  loc : Loc
  st : State
  deriving DecidableEq, Repr

/-- What can happen to the running server. -/
inductive Event where
  /-- SIGINT or SIGTERM is delivered; the handler runs. -/
  | signal
  /-- The `accept` call returns `ret`, with `errno` as given when `ret < 0`. -/
  | accept (ret : Int) (errno : Int)
  /-- One iteration of the receive loop with the given inputs. -/
  | iter (i : IterInput)
  deriving DecidableEq, Repr

/-! ## Helper functions of the C file -/

/-- Bytes of a string literal, as a C string without its terminator. -/
def cstr (s : String) : List Nat := s.toList.map Char.toNat

/-- The C string stored at the start of a byte array: the bytes before the first 0. -/
def cString (b : List Nat) : List Nat := b.takeWhile (fun c => c != 0)

/-- The function `strlen`. -/
def strlen (b : List Nat) : Nat := (cString b).length

/-- Index of the first occurrence of `c`, scanning from the left. -/
def firstIndexOf (c : Nat) : List Nat → Option Nat
  | [] => none
  | b :: rest => if b = c then some 0 else (firstIndexOf c rest).map (fun k => k + 1)

/-- The body of the loop of `bufferPacketFree` for slot `i`: a slot that is not
`NULL` is freed and set to `NULL`. -/
def freeSlot (t : List (Option (List Nat))) (i : Nat) : List (Option (List Nat)) :=
  match t.getD i none with
  | some _ => t.set i none
  | none => t

/-- The function `bufferPacketFree`: the loop runs over the slots below
`bufferPacketIndex`, then the index is reset to 0. -/
def bufferPacketFree (s : State) : State :=
  { s with
    bufferPacket := (List.range s.bufferPacketIndex).foldl freeSlot s.bufferPacket
    bufferPacketIndex := 0 }

/-- A `close(fd)` call. -/
def closeFd (fd : Int) (s : State) : State :=
  { s with effects := s.effects ++ [Effect.close fd] }

/-- The function `cleanup`. -/
def cleanup (s : State) : State :=
  let s1 := bufferPacketFree s
  let s2 := if s1.serverSockFd > 0 then closeFd s1.serverSockFd s1 else s1
  let s3 := if s2.newSockFd > 0 then closeFd s2.newSockFd s2 else s2
  { s3 with log := none, effects := s3.effects ++ [Effect.remove] }

/-- The function `logAndExit`: the exit status and the final state of the process.
`sizeof(msgBuffer) - 64` is `256 - 64`. -/
def logAndExit (msg : List Nat) (exit_code : Int) (s : State) : Int × State :=
  if strlen msg ≥ 256 - 64 then
    (EXIT_FAILURE, s)
  else
    (exit_code, cleanup { s with effects := s.effects ++ [Effect.logError msg] })

/-- The function `checkForNullCharInString`; `str = none` is a `NULL` pointer. -/
def checkForNullCharInString (str : Option (List Nat)) (len : Int) : Bool :=
  match str with
  | none => true
  | some bytes =>
    if len ≤ 0 then true
    else (firstIndexOf 0 (bytes.take len.toNat)).isSome

/-- The function `checkForNewlineCharInString`: the returned flag and the value of
`*newlinePosition` afterwards.  `pos` is that value before the call, `none` when the
pointer `newlinePosition` is `NULL`. -/
def checkForNewlineCharInString (str : Option (List Nat)) (len : Int) (pos : Option Int) :
    Bool × Option Int :=
  match str with
  | none => (true, pos)
  | some bytes =>
    if len ≤ 0 then (true, pos)
    else
      match firstIndexOf NEWLINE (bytes.take len.toNat) with
      | some i => (true, pos.map (fun _ => (i : Int)))
      | none => (false, pos)

/-! ## The receive loop of `main` -/

/-- The state an iteration ends in. -/
def Outcome.state : Outcome → State
  | Outcome.next s => s
  | Outcome.closed s => s
  | Outcome.terminated _ s => s

/-- The exit status, when the iteration ended the process. -/
def Outcome.exitCode : Outcome → Option Int
  | Outcome.terminated code _ => some code
  | _ => none

/-- All bytes handed to `send` by the calls in a list, in order. -/
def sentBytes : List Effect → List Nat
  | [] => []
  | Effect.send _ block :: rest => block ++ sentBytes rest
  | _ :: rest => sentBytes rest

/-- The bytes written by the append sessions in a list, one entry per session. -/
def appended : List Effect → List (List Nat)
  | [] => []
  | Effect.append bytes :: rest => bytes :: appended rest
  | _ :: rest => appended rest

/-- The messages reported by `logAndExit` in a list of calls, in order. -/
def logErrors : List Effect → List (List Nat)
  | [] => []
  | Effect.logError msg :: rest => msg :: logErrors rest
  | _ :: rest => logErrors rest

/-- The number of `recv` calls in a list of calls. -/
def recvCount : List Effect → Nat
  | [] => 0
  | Effect.recv _ :: rest => recvCount rest + 1
  | _ :: rest => recvCount rest

/-- The calls an iteration that started in `s` and ended in `t` has made. -/
def newEffects (s t : State) : List Effect := t.effects.drop s.effects.length

/-- A buffer from `calloc(BUFFER_SIZE, 1)` after `recv` has stored `got` at its start
(the assignment `buffer[recvLen] = 0` writes a byte that is 0 already). -/
def fillBuffer (got : List Nat) : List Nat :=
  got ++ List.replicate (BUFFER_SIZE - got.length) 0

/-- The `recv` call is made on `newSockFd`. -/
def recvCall (s : State) : State :=
  { s with effects := s.effects ++ [Effect.recv s.newSockFd] }

/-- The outcome of a call of `logAndExit`. -/
def terminate (r : Int × State) : Outcome := Outcome.terminated r.1 r.2

/-- The statement `bufferPacket[bufferPacketIndex++] = buffer`, with the content the
buffer has once `recv` has filled it; the index written at is added to `stores`. -/
def storeBuffer (s : State) (buffer : List Nat) : State :=
  { s with
    bufferPacket := s.bufferPacket.set s.bufferPacketIndex (some buffer)
    bufferPacketIndex := (s.bufferPacketIndex + 1) % 256
    stores := s.stores ++ [s.bufferPacketIndex] }

/-- The body of the `fwrite` loop for slot `i`, with `out` the bytes written so far:
a `NULL` slot is skipped, otherwise `strlen` bytes of the buffer are written. -/
def writeSlot (t : List (Option (List Nat))) (out : List Nat) (i : Nat) : List Nat :=
  match t.getD i none with
  | none => out
  | some b => out ++ b.take (strlen b)

/-- The bytes the `fwrite` loop writes: it runs over the slots below
`bufferPacketIndex`, in order. -/
def packetBytes (s : State) : List Nat :=
  (List.range s.bufferPacketIndex).foldl (writeSlot s.bufferPacket) []

/-- The read-back loop: `fread` takes up to 256 bytes from the current position; the
loop ends when it returns 0; every other block is handed to `send`. -/
def readBack (file : List Nat) : List (List Nat) :=
  if _ : (file.take BUFFER_SIZE).length = 0 then []
  else file.take BUFFER_SIZE :: readBack (file.drop BUFFER_SIZE)
termination_by file.length
decreasing_by
  rename_i h
  simp only [List.length_take, BUFFER_SIZE] at h
  simp only [List.length_drop, BUFFER_SIZE]
  omega

/-- What the read-back loop can read of the log: all of it, or only its first `n`
bytes when `fread` fails after `n` bytes. -/
def readableBytes (content : List Nat) : Option Nat → List Nat
  | none => content
  | some n => content.take n

/-- The null check of the receive loop: when `checkForNullCharInString` reports a
0 byte the whole table is freed. -/
def nullCheck (s : State) (buffer : List Nat) (recvLen : Int) : State :=
  if checkForNullCharInString (some buffer) recvLen then bufferPacketFree s else s

/-- The body of `if (checkForNewlineCharInString(..))`: one append session writing
the stored chunks, then the read-back loop sending the log. -/
def appendAndEcho (s : State) (freadError : Option Nat) : Outcome :=
  let written := packetBytes s
  let content := s.log.getD [] ++ written
  let s1 := { s with log := some content, effects := s.effects ++ [Effect.append written] }
  let readable := readableBytes content freadError
  let blocks := readBack readable
  let s2 := { s1 with effects := s1.effects ++ blocks.map (Effect.send s1.newSockFd) }
  if readable.length < content.length then
    terminate (logAndExit (cstr "Failed to read from file") EXIT_FAILURE s2)
  else
    Outcome.next s2

/-- One iteration of the loop `while (1)` of `main`.  After the table has been freed
by the null check the newline scan still reads `buffer`, which C leaves undefined; here
the scan sees the bytes that were received. -/
def iteration (s : State) (i : IterInput) : Outcome :=
  if i.calloc = false then
    terminate (logAndExit (cstr "Failed to allocate memory for buffer") EXIT_FAILURE s)
  else if s.bufferPacketIndex ≥ 128 then
    terminate (logAndExit (cstr "Buffer packet index exceeded limit") EXIT_FAILURE
      (bufferPacketFree s))
  else
    match i.recv with
    | RecvResult.error _ =>
      let s1 := recvCall (storeBuffer s (fillBuffer []))
      terminate (logAndExit (cstr "Failed to receive data") EXIT_FAILURE (bufferPacketFree s1))
    | RecvResult.data avail =>
      let got := avail.take (BUFFER_SIZE - 1)
      let recvLen : Int := (got.length : Int)
      let buffer := fillBuffer got
      let s1 := recvCall (storeBuffer s buffer)
      if recvLen = 0 then
        Outcome.closed (closeFd s1.newSockFd (bufferPacketFree s1))
      else
        let s2 := nullCheck s1 buffer recvLen
        if (checkForNewlineCharInString (some buffer) recvLen (some (-1))).1 then
          appendAndEcho s2 i.freadError
        else
          Outcome.next s2

/-- The receive loop run on a list of inputs: it stops at a `break` or an `exit`, and
otherwise after the last input. -/
def recvLoop (s : State) : List IterInput → Outcome
  | [] => Outcome.next s
  | i :: rest =>
    match iteration s i with
    | Outcome.next s1 => recvLoop s1 rest
    | o => o

/-! ## The accept loop of `main` -/

/-- The end of `main`: `cleanup(); return EXIT_SUCCESS;`. -/
def finish (s : State) : Config := ⟨Loc.exited EXIT_SUCCESS, cleanup s⟩

/-- The loop condition `while (!stop)`. -/
def loopHead (s : State) : Config :=
  if s.stop then finish s else ⟨Loc.accepting, s⟩

/-- The configuration after a call of `logAndExit`. -/
def exitConfig (r : Int × State) : Config := ⟨Loc.exited r.1, r.2⟩

/-- The `accept` call and the test of its result. -/
def acceptStep (s : State) (ret : Int) (errno : Int) : Config :=
  let s1 := { s with newSockFd := ret }
  if ret < 0 then
    if errno = EINTR ∧ s1.stop = true then
      finish s1
    else
      exitConfig (logAndExit (cstr "Failed to accept connection") EXIT_FAILURE s1)
  else
    ⟨Loc.receiving, s1⟩

/-- One step of the server. -/
def serverStep (c : Config) (e : Event) : Config :=
  match c.loc, e with
  | Loc.exited _, _ => c
  | _, Event.signal => { c with st := { c.st with stop := true } }
  | Loc.accepting, Event.accept ret errno => acceptStep c.st ret errno
  | Loc.receiving, Event.iter i =>
    match iteration c.st i with
    | Outcome.next s => ⟨Loc.receiving, s⟩
    | Outcome.closed s => loopHead s
    | Outcome.terminated code s => ⟨Loc.exited code, s⟩
  | _, _ => c

/-- The server run on a list of events. -/
def serverRun (c : Config) (es : List Event) : Config := es.foldl serverStep c

/-- The program variables when `main` starts, with the log file as found. -/
def initialState (log : Option (List Nat)) : State :=
  { stop := false, newSockFd := 0, serverSockFd := 0, bufferPacket := emptyTable,
    bufferPacketIndex := 0, log := log, effects := [], stores := [] }

/-- The start of `main` up to the accept loop: `socket` returns `sockRet` and `bind`
returns `bindRet`. -/
def startup (log : Option (List Nat)) (sockRet bindRet : Int) : Config :=
  let s := { initialState log with serverSockFd := sockRet }
  if sockRet < 0 then
    exitConfig (logAndExit (cstr "Failed to create socket") EXIT_FAILURE s)
  else if bindRet < 0 then
    exitConfig (logAndExit (cstr "Failed to bind socket") EXIT_FAILURE s)
  else
    loopHead s

/-- An iteration in which `calloc` succeeds, `recv` delivers `chunk` and reading the
log back does not fail. -/
def received (chunk : List Nat) : IterInput :=
  { calloc := true, recv := RecvResult.data chunk, freadError := none }

/-- The iteration gets its buffer from `calloc` and its `recv` call delivers `d`. -/
def delivers (i : IterInput) (d : List Nat) : Prop :=
  i.calloc = true ∧ i.recv = RecvResult.data d

/-- The chunk table holds exactly the chunks `cs`, in the order they were received,
and every other slot is `NULL`. -/
def Holds (s : State) (cs : List (List Nat)) : Prop :=
  s.bufferPacket =
      cs.map (fun c => some (fillBuffer c)) ++ List.replicate (SLOT_COUNT - cs.length) none ∧
    s.bufferPacketIndex = cs.length ∧ cs.length ≤ SLOT_COUNT

/-- Every write into the table so far was at an index below 128. -/
def StoresOk (s : State) : Prop := ∀ k ∈ s.stores, k < SLOT_COUNT

/-- The table is a 128-slot table and the index does not point beyond its end. -/
def TableOk (s : State) : Prop :=
  s.bufferPacketIndex ≤ SLOT_COUNT ∧ s.bufferPacket.length = SLOT_COUNT

/-- State of the receive loop after the chunks `"ab"` and then `"c\0d"` have been stored
on a fresh connection, before the null check of the second iteration. -/
def twoChunksStored : State :=
  recvCall (storeBuffer (recvCall (storeBuffer (initialState none) (fillBuffer [97, 98])))
    (fillBuffer [99, 0, 100]))

/-- Program variables of a server with listening socket 3 and connection 4 on which
the shutdown signal has been delivered. -/
def stoppedServer : State :=
  { initialState (some [120, 10]) with stop := true, serverSockFd := 3, newSockFd := 4 }

/-- Program variables of a server with listening socket 3, connection 4 and the
packet `"x\n"` in the log. -/
def runningServer : State :=
  { initialState (some [120, 10]) with serverSockFd := 3, newSockFd := 4 }

/-- The states the running server can be in. -/
def Reachable (c : Config) : Prop :=
  ∃ log sockRet bindRet es, c = serverRun (startup log sockRet bindRet) es

/-! ## Lists, buffers and the two loops over the table -/

theorem set_none_of_getD_none (t : List (Option (List Nat))) (i : Nat)
    (h : t.getD i none = none) : t.set i none = t := by
  induction t generalizing i with
  | nil => rfl
  | cons a t ih =>
    cases i with
    | zero => simp at h; simp [h]
    | succ i => simp at h; simp [ih i (by simpa using h)]

theorem freeSlot_eq (t : List (Option (List Nat))) (i : Nat) :
    freeSlot t i = t.set i none := by
  unfold freeSlot
  cases h : t.getD i none with
  | none => simp [set_none_of_getD_none t i h]
  | some b => simp

theorem freeFold_eq (t : List (Option (List Nat))) (n : Nat) :
    (List.range n).foldl freeSlot t
      = List.replicate (min n t.length) none ++ t.drop n := by
  induction n with
  | zero => simp
  | succ n ih =>
    rw [List.range_succ, List.foldl_append, ih]
    simp only [List.foldl_cons, List.foldl_nil, freeSlot_eq]
    by_cases hn : n < t.length
    · have h1 : min n t.length = n := by omega
      have h2 : min (n + 1) t.length = n + 1 := by omega
      rw [h1, h2]
      have hd : t.drop n = t[n] :: t.drop (n + 1) := by
        simp
      rw [hd, List.set_append_right _ _ (by simp)]
      simp [List.replicate_succ']
      rw [hd]
      rfl
    · have h1 : min n t.length = t.length := by omega
      have h2 : min (n + 1) t.length = t.length := by omega
      rw [h1, h2, List.drop_of_length_le (by omega), List.drop_of_length_le (by omega)]
      simp

theorem firstIndexOf_eq_none {c : Nat} {l : List Nat} :
    firstIndexOf c l = none ↔ c ∉ l := by
  induction l with
  | nil => simp [firstIndexOf]
  | cons b l ih =>
    simp only [firstIndexOf]
    by_cases h : b = c
    · simp [h]
    · simp [h, ih, Ne.symm h]

theorem firstIndexOf_isSome {c : Nat} {l : List Nat} :
    (firstIndexOf c l).isSome = true ↔ c ∈ l := by
  rw [← not_iff_not]
  simp [firstIndexOf_eq_none]

theorem takeWhile_ne_zero (got rest : List Nat) (h0 : 0 ∉ got) :
    (got ++ 0 :: rest).takeWhile (fun c => c != 0) = got := by
  induction got with
  | nil => simp
  | cons a l ih =>
    simp only [List.mem_cons, not_or] at h0
    have ha : (a != 0) = true := by simpa using Ne.symm h0.1
    simp only [List.cons_append, List.takeWhile_cons, ha, if_true, ih h0.2]

theorem cString_fillBuffer (got : List Nat) (h0 : 0 ∉ got) (hlen : got.length < BUFFER_SIZE) :
    cString (fillBuffer got) = got := by
  unfold cString fillBuffer
  obtain ⟨k, hk⟩ : ∃ k, BUFFER_SIZE - got.length = k + 1 :=
    ⟨BUFFER_SIZE - got.length - 1, by omega⟩
  rw [hk, List.replicate_succ]
  exact takeWhile_ne_zero got _ h0

theorem written_fillBuffer (got : List Nat) (h0 : 0 ∉ got) (hlen : got.length < BUFFER_SIZE) :
    (fillBuffer got).take (strlen (fillBuffer got)) = got := by
  rw [strlen, cString_fillBuffer got h0 hlen]
  simp [fillBuffer]

theorem packetFold_eq (t : List (Option (List Nat))) (n : Nat) :
    (List.range n).foldl (writeSlot t) []
      = (((t.take n).filterMap id).map (fun b => b.take (strlen b))).flatten := by
  induction n with
  | zero => simp
  | succ n ih =>
    rw [List.range_succ, List.foldl_append, ih]
    simp only [List.foldl_cons, List.foldl_nil, writeSlot]
    by_cases hn : n < t.length
    · rw [List.take_succ, List.getD_eq_getElem?_getD, List.getElem?_eq_getElem hn]
      cases h : t[n] with
      | none => simp [h]
      | some b => simp [h]
    · rw [List.take_of_length_le (by omega), List.take_of_length_le (by omega)]
      have : t.getD n none = none := by
        rw [List.getD_eq_getElem?_getD, List.getElem?_eq_none (by omega)]
        rfl
      rw [this]

theorem readBack_nil : readBack [] = [] := by
  rw [readBack]; simp

theorem readBack_cons (file : List Nat) (h : file ≠ []) :
    readBack file = file.take BUFFER_SIZE :: readBack (file.drop BUFFER_SIZE) := by
  rw [readBack]
  have : ¬ (List.take BUFFER_SIZE file).length = 0 := by
    have : 0 < file.length := List.length_pos.mpr h
    rw [List.length_take]
    simp only [BUFFER_SIZE]
    omega
  simp only [this, dite_false]

theorem readBack_aux (n : Nat) : ∀ file : List Nat, file.length ≤ n →
    (readBack file).flatten = file ∧
      ∀ b ∈ readBack file, 0 < b.length ∧ b.length ≤ BUFFER_SIZE := by
  induction n with
  | zero =>
    intro file h
    have : file = [] := List.length_eq_zero.mp (by omega)
    subst this
    simp [readBack_nil]
  | succ n ih =>
    intro file h
    by_cases hf : file = []
    · subst hf; simp [readBack_nil]
    · have hpos : 0 < file.length := List.length_pos.mpr hf
      have hrec := ih (file.drop BUFFER_SIZE) (by simp [BUFFER_SIZE]; omega)
      rw [readBack_cons file hf]
      refine ⟨?_, ?_⟩
      · rw [List.flatten_cons, hrec.1, List.take_append_drop]
      · intro b hb
        rcases List.mem_cons.mp hb with rfl | hb
        · simp [BUFFER_SIZE]; omega
        · exact hrec.2 b hb

theorem readBack_flatten (file : List Nat) : (readBack file).flatten = file :=
  (readBack_aux file.length file (le_refl _)).1

theorem readBack_blocks (file : List Nat) :
    ∀ b ∈ readBack file, 0 < b.length ∧ b.length ≤ BUFFER_SIZE :=
  (readBack_aux file.length file (le_refl _)).2

theorem take_fillBuffer (got : List Nat) : (fillBuffer got).take got.length = got := by
  simp [fillBuffer]

theorem checkNull_fillBuffer (got : List Nat) (h : got ≠ []) :
    checkForNullCharInString (some (fillBuffer got)) (got.length : Int) = decide (0 ∈ got) := by
  have hpos : 0 < got.length := List.length_pos.mpr h
  have hlen : ¬ ((got.length : Int) ≤ 0) := by omega
  simp only [checkForNullCharInString, hlen, if_false, Int.toNat_ofNat, take_fillBuffer]
  by_cases h0 : 0 ∈ got
  · simp [h0, firstIndexOf_isSome.mpr h0]
  · simp [h0, firstIndexOf_eq_none.mpr h0]

theorem checkNewline_fillBuffer (got : List Nat) (h : got ≠ []) (pos : Option Int) :
    (checkForNewlineCharInString (some (fillBuffer got)) (got.length : Int) pos).1
      = decide (NEWLINE ∈ got) := by
  have hpos : 0 < got.length := List.length_pos.mpr h
  have hlen : ¬ ((got.length : Int) ≤ 0) := by omega
  simp only [checkForNewlineCharInString, hlen, if_false, Int.toNat_ofNat, take_fillBuffer]
  by_cases h0 : NEWLINE ∈ got
  · obtain ⟨k, hk⟩ := Option.isSome_iff_exists.mp (firstIndexOf_isSome.mpr h0)
    simp [h0, hk]
  · simp [h0, firstIndexOf_eq_none.mpr h0]

theorem iteration_data (s : State) (avail : List Nat) (fe : Option Nat)
    (hidx : s.bufferPacketIndex < 128) (hne : avail.take (BUFFER_SIZE - 1) ≠ []) :
    iteration s ⟨true, RecvResult.data avail, fe⟩ =
      (let got := avail.take (BUFFER_SIZE - 1)
       let s1 := recvCall (storeBuffer s (fillBuffer got))
       let s2 := if 0 ∈ got then bufferPacketFree s1 else s1
       if NEWLINE ∈ got then appendAndEcho s2 fe else Outcome.next s2) := by
  have hpos : 0 < (avail.take (BUFFER_SIZE - 1)).length := List.length_pos.mpr hne
  have hlen : ¬ (((avail.take (BUFFER_SIZE - 1)).length : Int) = 0) := by omega
  have hi : ¬ (s.bufferPacketIndex ≥ 128) := by omega
  simp only [iteration, hi, hlen, if_false, nullCheck, checkNull_fillBuffer _ hne,
    checkNewline_fillBuffer _ hne, decide_eq_true_eq]
  simp

theorem iteration_closed (s : State) (avail : List Nat) (fe : Option Nat)
    (hidx : s.bufferPacketIndex < 128) (hne : avail.take (BUFFER_SIZE - 1) = []) :
    iteration s ⟨true, RecvResult.data avail, fe⟩ =
      (let s1 := recvCall (storeBuffer s (fillBuffer []))
       Outcome.closed (closeFd s1.newSockFd (bufferPacketFree s1))) := by
  have hi : ¬ (s.bufferPacketIndex ≥ 128) := by omega
  simp only [iteration, hi, hne, if_false]
  simp

theorem appendAndEcho_none (s : State) :
    appendAndEcho s none =
      Outcome.next
        { s with
          log := some (s.log.getD [] ++ packetBytes s)
          effects := s.effects ++ [Effect.append (packetBytes s)] ++
            (readBack (s.log.getD [] ++ packetBytes s)).map (Effect.send s.newSockFd) } := by
  simp [appendAndEcho, readableBytes]

theorem packetBytes_eq (s : State) :
    packetBytes s =
      (((s.bufferPacket.take s.bufferPacketIndex).filterMap id).map
        (fun b => b.take (strlen b))).flatten :=
  packetFold_eq _ _

theorem Holds.store_chunk {s : State} {cs : List (List Nat)} (h : Holds s cs)
    (hlt : cs.length < SLOT_COUNT) (c : List Nat) :
    Holds (recvCall (storeBuffer s (fillBuffer c))) (cs ++ [c]) := by
  obtain ⟨ht, hi, _⟩ := h
  refine ⟨?_, ?_, ?_⟩
  · simp only [recvCall, storeBuffer, ht, hi]
    obtain ⟨k, hk⟩ : ∃ k, SLOT_COUNT - cs.length = k + 1 :=
      ⟨SLOT_COUNT - cs.length - 1, by omega⟩
    have hk2 : SLOT_COUNT - (cs ++ [c]).length = k := by simp; omega
    rw [hk, hk2, List.replicate_succ, List.set_append_right _ _ (by simp)]
    simp
  · simp only [recvCall, storeBuffer, hi, SLOT_COUNT] at *
    simp; omega
  · simp; omega

theorem flatten_written (cs : List (List Nat))
    (hc : ∀ c ∈ cs, c.length < BUFFER_SIZE ∧ 0 ∉ c) :
    (((cs.map (fun c => some (fillBuffer c))).filterMap id).map
        (fun b => b.take (strlen b))).flatten = cs.flatten := by
  induction cs with
  | nil => simp
  | cons c cs ih =>
    have hc1 := hc c (by simp)
    simp only [List.map_cons, List.filterMap_cons, id, List.flatten_cons,
      written_fillBuffer c hc1.2 hc1.1]
    rw [ih (fun c hc2 => hc c (by simp [hc2]))]

theorem Holds.written {s : State} {cs : List (List Nat)} (h : Holds s cs)
    (hc : ∀ c ∈ cs, c.length < BUFFER_SIZE ∧ 0 ∉ c) :
    packetBytes s = cs.flatten := by
  obtain ⟨ht, hi, _⟩ := h
  rw [packetBytes_eq, ht, hi]
  have : (cs.map (fun c => some (fillBuffer c)) ++
      List.replicate (SLOT_COUNT - cs.length) none).take cs.length
        = cs.map (fun c => some (fillBuffer c)) := by
    rw [List.take_append_of_le_length (by simp)]
    simp
  rw [this]
  exact flatten_written cs hc

theorem Holds.free_all {s : State} {cs : List (List Nat)} (h : Holds s cs) :
    Holds (bufferPacketFree s) [] := by
  obtain ⟨ht, hi, hle⟩ := h
  refine ⟨?_, rfl, by simp⟩
  show (List.range s.bufferPacketIndex).foldl freeSlot s.bufferPacket = _
  rw [freeFold_eq, ht, hi]
  simp
  omega

/-! ## Reading the record of calls -/

theorem newEffects_of_eq {s t : State} {r : List Effect} (h : t.effects = s.effects ++ r) :
    newEffects s t = r := by
  simp [newEffects, h]

@[simp] theorem sentBytes_append (a b : List Effect) :
    sentBytes (a ++ b) = sentBytes a ++ sentBytes b := by
  induction a with
  | nil => rfl
  | cons e a ih => cases e <;> simp [sentBytes, ih]

@[simp] theorem sentBytes_sends (fd : Int) (blocks : List (List Nat)) :
    sentBytes (blocks.map (Effect.send fd)) = blocks.flatten := by
  induction blocks with
  | nil => rfl
  | cons b blocks ih => simp [sentBytes, ih]

@[simp] theorem sentBytes_recvs (fd : Int) (n : Nat) :
    sentBytes (List.replicate n (Effect.recv fd)) = [] := by
  induction n with
  | zero => rfl
  | succ n ih => simp [List.replicate_succ, sentBytes, ih]

@[simp] theorem appended_append (a b : List Effect) :
    appended (a ++ b) = appended a ++ appended b := by
  induction a with
  | nil => rfl
  | cons e a ih => cases e <;> simp [appended, ih]

@[simp] theorem appended_sends (fd : Int) (blocks : List (List Nat)) :
    appended (blocks.map (Effect.send fd)) = [] := by
  induction blocks with
  | nil => rfl
  | cons b blocks ih => simp [appended, ih]

@[simp] theorem appended_recvs (fd : Int) (n : Nat) :
    appended (List.replicate n (Effect.recv fd)) = [] := by
  induction n with
  | zero => rfl
  | succ n ih => simp [List.replicate_succ, appended, ih]

/-! ## What the primitive steps change -/

@[simp] theorem bufferPacketFree_index (s : State) : (bufferPacketFree s).bufferPacketIndex = 0 := rfl
@[simp] theorem bufferPacketFree_effects (s : State) : (bufferPacketFree s).effects = s.effects := rfl
@[simp] theorem bufferPacketFree_log (s : State) : (bufferPacketFree s).log = s.log := rfl
@[simp] theorem bufferPacketFree_stop (s : State) : (bufferPacketFree s).stop = s.stop := rfl
@[simp] theorem bufferPacketFree_newSockFd (s : State) :
    (bufferPacketFree s).newSockFd = s.newSockFd := rfl
@[simp] theorem bufferPacketFree_serverSockFd (s : State) :
    (bufferPacketFree s).serverSockFd = s.serverSockFd := rfl

theorem bufferPacketFree_table (s : State) :
    (bufferPacketFree s).bufferPacket =
      List.replicate (min s.bufferPacketIndex s.bufferPacket.length) none ++
        s.bufferPacket.drop s.bufferPacketIndex :=
  freeFold_eq _ _

@[simp] theorem bufferPacketFree_length (s : State) :
    (bufferPacketFree s).bufferPacket.length = s.bufferPacket.length := by
  rw [bufferPacketFree_table]
  simp
  omega

theorem bufferPacketFree_slot (s : State) (i : Nat) (h : i < s.bufferPacketIndex) :
    (bufferPacketFree s).bufferPacket.getD i none = none := by
  rw [bufferPacketFree_table, List.getD_eq_getElem?_getD]
  by_cases hi : i < s.bufferPacket.length
  · rw [List.getElem?_append_left (by simp; omega)]
    simp
  · rw [List.getElem?_eq_none (by simp; omega)]
    rfl

theorem packetBytes_of_index_zero (s : State) (h : s.bufferPacketIndex = 0) :
    packetBytes s = [] := by
  simp [packetBytes, h]

theorem cleanup_effects (s : State) :
    (cleanup s).effects =
      s.effects ++ (if 0 < s.serverSockFd then [Effect.close s.serverSockFd] else []) ++
        (if 0 < s.newSockFd then [Effect.close s.newSockFd] else []) ++ [Effect.remove] := by
  unfold cleanup
  by_cases h1 : 0 < s.serverSockFd <;> by_cases h2 : 0 < s.newSockFd <;>
    simp [h1, h2, closeFd]

@[simp] theorem cleanup_log (s : State) : (cleanup s).log = none := rfl

@[simp] theorem cleanup_index (s : State) : (cleanup s).bufferPacketIndex = 0 := by
  unfold cleanup
  by_cases h1 : 0 < s.serverSockFd <;> by_cases h2 : 0 < s.newSockFd <;>
    simp [h1, h2, closeFd]

theorem cleanup_table (s : State) :
    (cleanup s).bufferPacket = (bufferPacketFree s).bufferPacket := by
  unfold cleanup
  by_cases h1 : 0 < s.serverSockFd <;> by_cases h2 : 0 < s.newSockFd <;>
    simp [h1, h2, closeFd]

theorem logAndExit_short (msg : List Nat) (code : Int) (s : State) (h : strlen msg < 192) :
    logAndExit msg code s =
      (code, cleanup { s with effects := s.effects ++ [Effect.logError msg] }) := by
  have : ¬ (strlen msg ≥ 256 - 64) := by omega
  simp only [logAndExit, this, if_false]

theorem logAndExit_long (msg : List Nat) (code : Int) (s : State) (h : 192 ≤ strlen msg) :
    logAndExit msg code s = (EXIT_FAILURE, s) := by
  have : strlen msg ≥ 256 - 64 := by omega
  simp only [logAndExit, this, if_true]

theorem strlen_allocMsg : strlen (cstr "Failed to allocate memory for buffer") < 192 := by decide
theorem strlen_limitMsg : strlen (cstr "Buffer packet index exceeded limit") < 192 := by decide
theorem strlen_recvMsg : strlen (cstr "Failed to receive data") < 192 := by decide
theorem strlen_readMsg : strlen (cstr "Failed to read from file") < 192 := by decide
theorem strlen_acceptMsg : strlen (cstr "Failed to accept connection") < 192 := by decide
theorem strlen_socketMsg : strlen (cstr "Failed to create socket") < 192 := by decide
theorem strlen_bindMsg : strlen (cstr "Failed to bind socket") < 192 := by decide

/-! ## The table invariant -/

theorem TableOk.free_ok {s : State} (h : TableOk s) : TableOk (bufferPacketFree s) := by
  refine ⟨by simp, ?_⟩
  rw [bufferPacketFree_length]; exact h.2

theorem TableOk.after_cleanup {s : State} (h : TableOk s) : TableOk (cleanup s) := by
  refine ⟨by simp, ?_⟩
  rw [cleanup_table, bufferPacketFree_length]; exact h.2

theorem TableOk.after_logAndExit {s : State} (h : TableOk s) (msg : List Nat) (code : Int) :
    TableOk (logAndExit msg code s).2 := by
  unfold AesdSocket.logAndExit
  split
  · exact h
  · exact TableOk.after_cleanup (s := { s with effects := s.effects ++ [Effect.logError msg] }) h

theorem TableOk.store_ok {s : State} (h : TableOk s) (hlt : s.bufferPacketIndex < 128)
    (b : List Nat) : TableOk (recvCall (storeBuffer s b)) := by
  obtain ⟨_, h2⟩ := h
  refine ⟨?_, ?_⟩
  · simp only [recvCall, storeBuffer, SLOT_COUNT]; omega
  · simp only [recvCall, storeBuffer, List.length_set]; exact h2

theorem TableOk.of_holds {s : State} {cs : List (List Nat)} (h : Holds s cs) : TableOk s := by
  obtain ⟨ht, hi, hle⟩ := h
  refine ⟨by omega, ?_⟩
  rw [ht]; simp; omega

/-! ## One iteration on a delivered chunk -/

theorem take_of_short (d : List Nat) (h : d.length ≤ 255) : d.take (BUFFER_SIZE - 1) = d :=
  List.take_of_length_le (by simp only [BUFFER_SIZE]; omega)

theorem iteration_delivers (s : State) (i : IterInput) (d : List Nat) (hdel : delivers i d)
    (hidx : s.bufferPacketIndex < 128) (hpos : 0 < d.length) (hlen : d.length ≤ 255) :
    iteration s i =
      (let s1 := recvCall (storeBuffer s (fillBuffer d))
       let s2 := if 0 ∈ d then bufferPacketFree s1 else s1
       if NEWLINE ∈ d then appendAndEcho s2 i.freadError else Outcome.next s2) := by
  have hne : d.take (BUFFER_SIZE - 1) ≠ [] := by
    rw [take_of_short d hlen]; exact List.length_pos.mp hpos
  obtain ⟨c, r, fe⟩ := i
  obtain ⟨hc, hr⟩ := hdel
  simp only at hc hr
  subst hc hr
  have := iteration_data s d fe hidx hne
  rw [take_of_short d hlen] at this
  exact this

theorem delivers_received (d : List Nat) : delivers (received d) d := ⟨rfl, rfl⟩

theorem forall₂_received (ds : List (List Nat)) : List.Forall₂ delivers (ds.map received) ds := by
  induction ds with
  | nil => exact List.Forall₂.nil
  | cons d ds ih => exact List.Forall₂.cons (delivers_received d) ih

theorem Holds.index_lt {s : State} {cs : List (List Nat)} (h : Holds s cs)
    (hlt : cs.length < SLOT_COUNT) : s.bufferPacketIndex < 128 := by
  have := h.2.1
  simp only [SLOT_COUNT] at hlt
  omega

theorem step_quiet (s : State) (cs : List (List Nat)) (i : IterInput) (d : List Nat)
    (hdel : delivers i d) (h : Holds s cs)
    (hlt : cs.length < SLOT_COUNT) (hpos : 0 < d.length) (hlen : d.length ≤ 255)
    (hnl : NEWLINE ∉ d) :
    ∃ s' cs', iteration s i = Outcome.next s' ∧ Holds s' cs' ∧
      cs'.length ≤ cs.length + 1 ∧ (0 ∉ d → cs' = cs ++ [d]) ∧
      s'.log = s.log ∧ s'.effects = s.effects ++ [Effect.recv s.newSockFd] ∧
      s'.newSockFd = s.newSockFd ∧ s'.stop = s.stop ∧ s'.serverSockFd = s.serverSockFd := by
  rw [iteration_delivers s i d hdel (h.index_lt hlt) hpos hlen]
  have hst := h.store_chunk hlt d
  by_cases h0 : 0 ∈ d
  · refine ⟨bufferPacketFree (recvCall (storeBuffer s (fillBuffer d))), [], ?_, hst.free_all, ?_, ?_,
      ?_, ?_, ?_, ?_, ?_⟩ <;> simp [h0, hnl, recvCall, storeBuffer]
  · refine ⟨recvCall (storeBuffer s (fillBuffer d)), cs ++ [d], ?_, hst, ?_, ?_,
      ?_, ?_, ?_, ?_, ?_⟩ <;> simp [h0, hnl, recvCall, storeBuffer]

theorem recvLoop_append (s s1 : State) (a b : List IterInput)
    (h : recvLoop s a = Outcome.next s1) : recvLoop s (a ++ b) = recvLoop s1 b := by
  induction a generalizing s with
  | nil =>
    simp only [recvLoop, Outcome.next.injEq] at h
    subst h; rfl
  | cons i a ih =>
    simp only [recvLoop, List.cons_append] at h ⊢
    cases hi : iteration s i with
    | next s2 => rw [hi] at h; simp only at h ⊢; exact ih s2 h
    | closed s2 => rw [hi] at h; simp at h
    | terminated c s2 => rw [hi] at h; simp at h

theorem run_quiet (ins : List IterInput) (ds : List (List Nat))
    (hdel : List.Forall₂ delivers ins ds) : ∀ (s : State) (cs : List (List Nat)),
    Holds s cs → cs.length + ds.length ≤ SLOT_COUNT →
    (∀ d ∈ ds, 0 < d.length ∧ d.length ≤ 255 ∧ NEWLINE ∉ d) →
    ∃ s' cs', recvLoop s ins = Outcome.next s' ∧ Holds s' cs' ∧
      cs'.length ≤ cs.length + ds.length ∧ ((∀ d ∈ ds, 0 ∉ d) → cs' = cs ++ ds) ∧
      s'.log = s.log ∧
      s'.effects = s.effects ++ List.replicate ds.length (Effect.recv s.newSockFd) ∧
      s'.newSockFd = s.newSockFd ∧ s'.stop = s.stop ∧ s'.serverSockFd = s.serverSockFd := by
  induction hdel with
  | nil =>
    intro s cs h _ _
    exact ⟨s, cs, rfl, h, by simp, by simp, rfl, by simp, rfl, rfl, rfl⟩
  | @cons i d ins ds hid _ ih =>
    intro s cs h hle hds
    have hd := hds d (by simp)
    simp only [List.length_cons] at hle
    obtain ⟨s1, cs1, hit, hh1, hl1, hc1, hlog1, heff1, hfd1, hstop1, hsrv1⟩ :=
      step_quiet s cs i d hid h (by omega) hd.1 hd.2.1 hd.2.2
    obtain ⟨s2, cs2, hrun, hh2, hl2, hc2, hlog2, heff2, hfd2, hstop2, hsrv2⟩ :=
      ih s1 cs1 hh1 (by omega) (fun x hx => hds x (by simp [hx]))
    refine ⟨s2, cs2, ?_, hh2, ?_, ?_, ?_, ?_, ?_, ?_, ?_⟩
    · simp only [recvLoop, hit]; exact hrun
    · simp only [List.length_cons]; omega
    · intro hall
      rw [hc2 (fun x hx => hall x (by simp [hx])), hc1 (hall d (by simp))]
      simp
    · rw [hlog2, hlog1]
    · rw [heff2, heff1, hfd1]
      simp [List.replicate_succ]
    · rw [hfd2, hfd1]
    · rw [hstop2, hstop1]
    · rw [hsrv2, hsrv1]

theorem clean_snoc {cs : List (List Nat)} {d : List Nat}
    (hcs : ∀ c ∈ cs, c.length < BUFFER_SIZE ∧ 0 ∉ c) (hlen : d.length ≤ 255) (h0 : 0 ∉ d) :
    ∀ c ∈ cs ++ [d], c.length < BUFFER_SIZE ∧ 0 ∉ c := by
  intro c hc
  rcases List.mem_append.mp hc with hc | hc
  · exact hcs c hc
  · simp only [List.mem_singleton] at hc
    subst hc
    exact ⟨by simp only [BUFFER_SIZE]; omega, h0⟩

theorem step_complete (s : State) (cs : List (List Nat)) (i : IterInput) (d : List Nat)
    (hdel : delivers i d) (hfe : i.freadError = none) (h : Holds s cs)
    (hlt : cs.length < SLOT_COUNT) (hcs : ∀ c ∈ cs, c.length < BUFFER_SIZE ∧ 0 ∉ c)
    (hpos : 0 < d.length) (hlen : d.length ≤ 255) (h0 : 0 ∉ d) (hnl : NEWLINE ∈ d) :
    ∃ s', iteration s i = Outcome.next s' ∧ Holds s' (cs ++ [d]) ∧
      s'.log = some (s.log.getD [] ++ (cs ++ [d]).flatten) ∧
      s'.effects = s.effects ++ [Effect.recv s.newSockFd] ++
        [Effect.append (cs ++ [d]).flatten] ++
        (readBack (s.log.getD [] ++ (cs ++ [d]).flatten)).map (Effect.send s.newSockFd) ∧
      s'.newSockFd = s.newSockFd ∧ s'.stop = s.stop ∧ s'.serverSockFd = s.serverSockFd := by
  rw [iteration_delivers s i d hdel (h.index_lt hlt) hpos hlen, hfe]
  have hst := h.store_chunk hlt d
  have hpk := hst.written (clean_snoc hcs hlen h0)
  simp only [h0, hnl, if_false, if_true, appendAndEcho_none, hpk]
  refine ⟨_, rfl, ?_, ?_, ?_, ?_, ?_, ?_⟩
  · exact ⟨hst.1, hst.2.1, hst.2.2⟩
  · simp [recvCall, storeBuffer]
  · simp [recvCall, storeBuffer]
  · simp [recvCall, storeBuffer]
  · simp [recvCall, storeBuffer]
  · simp [recvCall, storeBuffer]

theorem appended_cleanup (s : State) : appended (cleanup s).effects = appended s.effects := by
  rw [cleanup_effects]
  by_cases h1 : 0 < s.serverSockFd <;> by_cases h2 : 0 < s.newSockFd <;>
    simp [h1, h2, appended]

theorem appended_logAndExit (msg : List Nat) (code : Int) (s : State) :
    appended (logAndExit msg code s).2.effects = appended s.effects := by
  unfold logAndExit
  split
  · rfl
  · simp [appended_cleanup, appended]

theorem appendAndEcho_appended (s : State) (fe : Option Nat) :
    appended (appendAndEcho s fe).state.effects = appended s.effects ++ [packetBytes s] := by
  unfold appendAndEcho
  simp only
  split
  · simp [terminate, Outcome.state, appended_logAndExit, appended]
  · simp [Outcome.state, appended]

theorem step_complete_appended (s : State) (cs : List (List Nat)) (i : IterInput)
    (d : List Nat) (hdel : delivers i d) (h : Holds s cs)
    (hlt : cs.length < SLOT_COUNT) (hcs : ∀ c ∈ cs, c.length < BUFFER_SIZE ∧ 0 ∉ c)
    (hpos : 0 < d.length) (hlen : d.length ≤ 255) (h0 : 0 ∉ d) (hnl : NEWLINE ∈ d) :
    appended (iteration s i).state.effects = appended s.effects ++ [(cs ++ [d]).flatten] := by
  rw [iteration_delivers s i d hdel (h.index_lt hlt) hpos hlen]
  have hst := h.store_chunk hlt d
  have hpk := hst.written (clean_snoc hcs hlen h0)
  simp only [h0, hnl, if_false, if_true, appendAndEcho_appended, hpk]
  simp [recvCall, storeBuffer, appended]

theorem step_limit (s : State) (i : IterInput) (hc : i.calloc = true)
    (hidx : 128 ≤ s.bufferPacketIndex) :
    iteration s i =
      Outcome.terminated EXIT_FAILURE
        (cleanup { bufferPacketFree s with
          effects := s.effects ++
            [Effect.logError (cstr "Buffer packet index exceeded limit")] }) := by
  have h2 : s.bufferPacketIndex ≥ 128 := hidx
  simp only [iteration, hc, h2, if_true, terminate, logAndExit_short _ _ _ strlen_limitMsg]
  simp

theorem step_allocFail (s : State) (i : IterInput) (hc : i.calloc = false) :
    iteration s i =
      Outcome.terminated EXIT_FAILURE
        (cleanup { s with
          effects := s.effects ++
            [Effect.logError (cstr "Failed to allocate memory for buffer")] }) := by
  simp only [iteration, hc, if_true, terminate, logAndExit_short _ _ _ strlen_allocMsg]

theorem step_recvError (s : State) (e : Int) (fe : Option Nat)
    (hidx : s.bufferPacketIndex < 128) :
    iteration s ⟨true, RecvResult.error e, fe⟩ =
      Outcome.terminated EXIT_FAILURE
        (cleanup { bufferPacketFree (recvCall (storeBuffer s (fillBuffer []))) with
          effects := s.effects ++ [Effect.recv s.newSockFd] ++
            [Effect.logError (cstr "Failed to receive data")] }) := by
  have h2 : ¬ (s.bufferPacketIndex ≥ 128) := by omega
  simp only [iteration, h2, if_false, terminate, logAndExit_short _ _ _ strlen_recvMsg]
  simp [recvCall, storeBuffer]

theorem holds_initialState (log : Option (List Nat)) : Holds (initialState log) [] :=
  ⟨rfl, rfl, by simp⟩

/-! ## A packet delivered in several receives -/

theorem delivers_split (ins : List IterInput) (a b : List (List Nat))
    (h : List.Forall₂ delivers ins (a ++ b)) :
    ∃ ia ib, List.Forall₂ delivers ia a ∧ List.Forall₂ delivers ib b ∧ ins = ia ++ ib :=
  ⟨ins.take a.length, ins.drop a.length, List.forall₂_take_append ins a b h,
    List.forall₂_drop_append ins a b h, (List.take_append_drop _ _).symm⟩

theorem run_packet (s : State) (cs0 init : List (List Nat)) (last : List Nat)
    (ins : List IterInput) (hdel : List.Forall₂ delivers ins (init ++ [last]))
    (h : Holds s cs0) (hle : cs0.length + init.length + 1 ≤ SLOT_COUNT)
    (hcs0 : ∀ c ∈ cs0, c.length < BUFFER_SIZE ∧ 0 ∉ c)
    (hinit : ∀ c ∈ init, 0 < c.length ∧ c.length ≤ 255 ∧ 0 ∉ c ∧ NEWLINE ∉ c)
    (hpos : 0 < last.length) (hlen : last.length ≤ 255) (h0 : 0 ∉ last)
    (hnl : NEWLINE ∈ last) :
    appended (recvLoop s ins).state.effects =
        appended s.effects ++ [(cs0 ++ init ++ [last]).flatten] ∧
    ((∀ i ∈ ins, i.freadError = none) →
      ∃ s', recvLoop s ins = Outcome.next s' ∧
        Holds s' (cs0 ++ init ++ [last]) ∧
        s'.log = some (s.log.getD [] ++ (cs0 ++ init ++ [last]).flatten) ∧
        s'.effects =
          s.effects ++ List.replicate (init.length + 1) (Effect.recv s.newSockFd) ++
          [Effect.append (cs0 ++ init ++ [last]).flatten] ++
          (readBack (s.log.getD [] ++ (cs0 ++ init ++ [last]).flatten)).map
            (Effect.send s.newSockFd) ∧
        s'.newSockFd = s.newSockFd ∧ s'.stop = s.stop ∧ s'.serverSockFd = s.serverSockFd) := by
  obtain ⟨ins1, ins2, hd1, hd2, rfl⟩ := delivers_split ins init [last] hdel
  obtain ⟨i, hi, rfl⟩ : ∃ i, delivers i last ∧ ins2 = [i] := by
    cases hd2 with
    | cons hx hrest => cases hrest; exact ⟨_, hx, rfl⟩
  obtain ⟨s1, cs1, hrun, hh1, _, hc1, hlog1, heff1, hfd1, hstop1, hsrv1⟩ :=
    run_quiet ins1 init hd1 s cs0 h (by omega)
      (fun d hd => ⟨(hinit d hd).1, (hinit d hd).2.1, (hinit d hd).2.2.2⟩)
  have hcs1 : cs1 = cs0 ++ init := hc1 (fun d hd => (hinit d hd).2.2.1)
  subst hcs1
  have hclean : ∀ c ∈ cs0 ++ init, c.length < BUFFER_SIZE ∧ 0 ∉ c := by
    intro c hc
    rcases List.mem_append.mp hc with hc | hc
    · exact hcs0 c hc
    · exact ⟨by have := (hinit c hc).2.1; simp only [BUFFER_SIZE]; omega, (hinit c hc).2.2.1⟩
  have hrun2 : recvLoop s (ins1 ++ [i]) = iteration s1 i := by
    rw [recvLoop_append s s1 _ _ hrun]
    simp only [recvLoop]
    cases iteration s1 i <;> rfl
  refine ⟨?_, ?_⟩
  · rw [hrun2, step_complete_appended s1 (cs0 ++ init) i last hi hh1 (by simp; omega) hclean
      hpos hlen h0 hnl, heff1]
    simp
  · intro hfe
    obtain ⟨s2, hit, hh2, hlog2, heff2, hfd2, hstop2, hsrv2⟩ :=
      step_complete s1 (cs0 ++ init) i last hi (hfe i (by simp)) hh1 (by simp; omega) hclean
        hpos hlen h0 hnl
    refine ⟨s2, ?_, hh2, ?_, ?_, ?_, ?_, ?_⟩
    · rw [hrun2, hit]
    · rw [hlog2, hlog1]
    · rw [heff2, heff1, hfd1, hlog1]
      simp [List.replicate_succ', List.append_assoc]
    · rw [hfd2, hfd1]
    · rw [hstop2, hstop1]
    · rw [hsrv2, hsrv1]

/-! ## The server run on the iterations of one connection -/

@[simp] theorem logErrors_append (a b : List Effect) :
    logErrors (a ++ b) = logErrors a ++ logErrors b := by
  induction a with
  | nil => rfl
  | cons e a ih => cases e <;> simp [logErrors, ih]

@[simp] theorem logErrors_sends (fd : Int) (blocks : List (List Nat)) :
    logErrors (blocks.map (Effect.send fd)) = [] := by
  induction blocks with
  | nil => rfl
  | cons b blocks ih => simp [logErrors, ih]

@[simp] theorem recvCount_append (a b : List Effect) :
    recvCount (a ++ b) = recvCount a + recvCount b := by
  induction a with
  | nil => simp [recvCount]
  | cons e a ih => cases e <;> simp [recvCount, ih]; omega

@[simp] theorem recvCount_sends (fd : Int) (blocks : List (List Nat)) :
    recvCount (blocks.map (Effect.send fd)) = 0 := by
  induction blocks with
  | nil => rfl
  | cons b blocks ih => simp [recvCount, ih]

theorem logErrors_cleanup (s : State) : logErrors (cleanup s).effects = logErrors s.effects := by
  rw [cleanup_effects]
  by_cases h1 : 0 < s.serverSockFd <;> by_cases h2 : 0 < s.newSockFd <;>
    simp [h1, h2, logErrors]

theorem recvCount_cleanup (s : State) : recvCount (cleanup s).effects = recvCount s.effects := by
  rw [cleanup_effects]
  by_cases h1 : 0 < s.serverSockFd <;> by_cases h2 : 0 < s.newSockFd <;>
    simp [h1, h2, recvCount]

/-! ## What an iteration that does not end the process has done -/

theorem readableBytes_eq (content : List Nat) (fe : Option Nat)
    (h : ¬ (readableBytes content fe).length < content.length) :
    readableBytes content fe = content := by
  cases fe with
  | none => rfl
  | some n =>
    simp only [readableBytes] at h ⊢
    apply List.take_of_length_le
    rw [List.length_take] at h
    omega

theorem appendAndEcho_next {s s' : State} {fe : Option Nat}
    (h : appendAndEcho s fe = Outcome.next s') :
    s' = { s with
            log := some (s.log.getD [] ++ packetBytes s)
            effects := s.effects ++ [Effect.append (packetBytes s)] ++
              (readBack (s.log.getD [] ++ packetBytes s)).map (Effect.send s.newSockFd) } := by
  unfold appendAndEcho at h
  simp only at h
  split at h
  · simp [terminate] at h
  · rename_i hlt
    rw [readableBytes_eq _ _ hlt] at h
    simp only [Outcome.next.injEq] at h
    rw [← h]

theorem appendAndEcho_ne_closed (s s' : State) (fe : Option Nat) :
    appendAndEcho s fe ≠ Outcome.closed s' := by
  unfold appendAndEcho
  simp only
  split <;> simp [terminate]

theorem appendAndEcho_record (s : State) (fe : Option Nat) :
    recvCount (appendAndEcho s fe).state.effects = recvCount s.effects ∧
    (logErrors (appendAndEcho s fe).state.effects = logErrors s.effects ∨
      logErrors (appendAndEcho s fe).state.effects =
        logErrors s.effects ++ [cstr "Failed to read from file"]) := by
  unfold appendAndEcho
  simp only
  split
  · rw [logAndExit_short _ _ _ strlen_readMsg]
    simp [terminate, Outcome.state, recvCount_cleanup, logErrors_cleanup, recvCount, logErrors]
  · simp [Outcome.state, recvCount, logErrors]

theorem iteration_next_inv {s s' : State} {i : IterInput}
    (h : iteration s i = Outcome.next s') :
    ∃ d, delivers i d ∧ s.bufferPacketIndex < 128 ∧ d.take (BUFFER_SIZE - 1) ≠ [] ∧
      ((NEWLINE ∉ d.take (BUFFER_SIZE - 1) ∧
          s' = (if 0 ∈ d.take (BUFFER_SIZE - 1)
                then bufferPacketFree
                  (recvCall (storeBuffer s (fillBuffer (d.take (BUFFER_SIZE - 1)))))
                else recvCall (storeBuffer s (fillBuffer (d.take (BUFFER_SIZE - 1)))))) ∨
       (NEWLINE ∈ d.take (BUFFER_SIZE - 1) ∧
          appendAndEcho
            (if 0 ∈ d.take (BUFFER_SIZE - 1)
              then bufferPacketFree
                (recvCall (storeBuffer s (fillBuffer (d.take (BUFFER_SIZE - 1)))))
              else recvCall (storeBuffer s (fillBuffer (d.take (BUFFER_SIZE - 1)))))
            i.freadError = Outcome.next s')) := by
  obtain ⟨c, r, fe⟩ := i
  cases c with
  | false => rw [step_allocFail s _ rfl] at h; simp at h
  | true =>
    by_cases hidx : 128 ≤ s.bufferPacketIndex
    · rw [step_limit s _ rfl hidx] at h; simp at h
    · have hlt : s.bufferPacketIndex < 128 := by omega
      cases r with
      | error e => rw [step_recvError s e fe hlt] at h; simp at h
      | data d =>
        by_cases hne : d.take (BUFFER_SIZE - 1) = []
        · rw [iteration_closed s d fe hlt hne] at h; simp at h
        · rw [iteration_data s d fe hlt hne] at h
          refine ⟨d, ⟨rfl, rfl⟩, hlt, hne, ?_⟩
          simp only at h
          by_cases hnl : NEWLINE ∈ d.take (BUFFER_SIZE - 1)
          · right
            simp only [hnl, if_true] at h
            exact ⟨hnl, h⟩
          · left
            simp only [hnl, if_false, Outcome.next.injEq] at h
            exact ⟨hnl, h.symm⟩

theorem iteration_closed_inv {s s' : State} {i : IterInput}
    (h : iteration s i = Outcome.closed s') :
    s'.log = s.log ∧ s'.bufferPacketIndex = 0 ∧ s'.stop = s.stop := by
  obtain ⟨c, r, fe⟩ := i
  cases c with
  | false => rw [step_allocFail s _ rfl] at h; simp at h
  | true =>
    by_cases hidx : 128 ≤ s.bufferPacketIndex
    · rw [step_limit s _ rfl hidx] at h; simp at h
    · have hlt : s.bufferPacketIndex < 128 := by omega
      cases r with
      | error e => rw [step_recvError s e fe hlt] at h; simp at h
      | data d =>
        by_cases hne : d.take (BUFFER_SIZE - 1) = []
        · rw [iteration_closed s d fe hlt hne] at h
          simp only [Outcome.closed.injEq] at h
          subst h
          simp [closeFd, recvCall, storeBuffer]
        · rw [iteration_data s d fe hlt hne] at h
          simp only at h
          split at h
          · rename_i hnl
            exact absurd h (appendAndEcho_ne_closed _ _ _)
          · simp at h

/-! ## The table along a run of the server -/

theorem TableOk.of_eq {s t : State} (h : TableOk s) (h1 : t.bufferPacket = s.bufferPacket)
    (h2 : t.bufferPacketIndex = s.bufferPacketIndex) : TableOk t := by
  unfold TableOk at *
  rw [h1, h2]; exact h

theorem appendAndEcho_tableOk {s : State} (h : TableOk s) (fe : Option Nat) :
    TableOk (appendAndEcho s fe).state := by
  unfold appendAndEcho
  simp only
  split
  · show TableOk (logAndExit _ _ _).2
    refine TableOk.after_logAndExit ?_ _ _
    exact h.of_eq rfl rfl
  · exact h.of_eq rfl rfl

theorem iteration_tableOk {s : State} (h : TableOk s) (i : IterInput) :
    TableOk (iteration s i).state := by
  obtain ⟨c, r, fe⟩ := i
  cases c with
  | false =>
    rw [step_allocFail s _ rfl]
    exact TableOk.after_cleanup (h.of_eq rfl rfl)
  | true =>
    by_cases hidx : 128 ≤ s.bufferPacketIndex
    · rw [step_limit s _ rfl hidx]
      exact TableOk.after_cleanup (h.free_ok.of_eq rfl rfl)
    · have hlt : s.bufferPacketIndex < 128 := by omega
      cases r with
      | error e =>
        rw [step_recvError s e fe hlt]
        exact TableOk.after_cleanup ((h.store_ok hlt _).free_ok.of_eq rfl rfl)
      | data d =>
        by_cases hne : d.take (BUFFER_SIZE - 1) = []
        · rw [iteration_closed s d fe hlt hne]
          exact (h.store_ok hlt _).free_ok.of_eq rfl rfl
        · rw [iteration_data s d fe hlt hne]
          simp only
          have h2 : TableOk (if 0 ∈ d.take (BUFFER_SIZE - 1)
              then bufferPacketFree
                (recvCall (storeBuffer s (fillBuffer (d.take (BUFFER_SIZE - 1)))))
              else recvCall (storeBuffer s (fillBuffer (d.take (BUFFER_SIZE - 1))))) := by
            split
            · exact (h.store_ok hlt _).free_ok
            · exact h.store_ok hlt _
          split
          · exact appendAndEcho_tableOk h2 _
          · exact h2

theorem loopHead_tableOk {s : State} (h : TableOk s) : TableOk (loopHead s).st := by
  unfold loopHead
  split
  · exact TableOk.after_cleanup h
  · exact h

theorem acceptStep_tableOk {s : State} (h : TableOk s) (ret errno : Int) :
    TableOk (acceptStep s ret errno).st := by
  unfold acceptStep
  simp only
  split
  · split
    · exact TableOk.after_cleanup (h.of_eq rfl rfl)
    · show TableOk (logAndExit _ _ _).2
      refine TableOk.after_logAndExit ?_ _ _
      exact h.of_eq rfl rfl
  · exact h.of_eq rfl rfl

theorem serverStep_tableOk {c : Config} (h : TableOk c.st) (e : Event) :
    TableOk (serverStep c e).st := by
  obtain ⟨loc, s⟩ := c
  cases loc <;> cases e <;> simp only [serverStep]
  all_goals first
    | exact h
    | exact h.of_eq rfl rfl
    | exact acceptStep_tableOk h _ _
    | skip
  rename_i i
  have := iteration_tableOk h i
  cases hi : iteration s i with
  | next s1 => rw [hi] at this; exact this
  | closed s1 => rw [hi] at this; exact loopHead_tableOk this
  | terminated code s1 => rw [hi] at this; exact this

theorem serverRun_tableOk (es : List Event) : ∀ c : Config, TableOk c.st →
    TableOk (serverRun c es).st := by
  induction es with
  | nil => intro c h; exact h
  | cons e es ih =>
    intro c h
    exact ih (serverStep c e) (serverStep_tableOk h e)

theorem tableOk_initialState (log : Option (List Nat)) : TableOk (initialState log) :=
  ⟨by simp [initialState], by simp [initialState, emptyTable]⟩

theorem startup_tableOk (log : Option (List Nat)) (sockRet bindRet : Int) :
    TableOk (startup log sockRet bindRet).st := by
  have h0 : TableOk ({ initialState log with serverSockFd := sockRet } : State) :=
    (tableOk_initialState log).of_eq rfl rfl
  unfold startup
  simp only
  split
  · show TableOk (logAndExit _ _ _).2
    exact TableOk.after_logAndExit h0 _ _
  · split
    · show TableOk (logAndExit _ _ _).2
      exact TableOk.after_logAndExit h0 _ _
    · exact loopHead_tableOk h0

theorem reachable_tableOk {c : Config} (h : Reachable c) : TableOk c.st := by
  obtain ⟨log, sockRet, bindRet, es, rfl⟩ := h
  exact serverRun_tableOk es _ (startup_tableOk log sockRet bindRet)

/-! ## The index along the iterations of one connection -/

theorem iteration_next_index {s s' : State} {i : IterInput}
    (h : iteration s i = Outcome.next s')
    (hnull : ∀ d, i.recv = RecvResult.data d → 0 ∉ d.take (BUFFER_SIZE - 1)) :
    s.bufferPacketIndex < 128 ∧ s'.bufferPacketIndex = s.bufferPacketIndex + 1 := by
  obtain ⟨d, hdel, hlt, _, hcase⟩ := iteration_next_inv h
  have h0 := hnull d hdel.2
  refine ⟨hlt, ?_⟩
  simp only [h0, if_false] at hcase
  rcases hcase with ⟨_, rfl⟩ | ⟨_, hecho⟩
  · simp only [recvCall, storeBuffer]; omega
  · rw [appendAndEcho_next hecho]
    simp only [recvCall, storeBuffer]; omega

theorem recvLoop_next_index (ins : List IterInput) : ∀ (s s' : State),
    (∀ i ∈ ins, ∀ d, i.recv = RecvResult.data d → 0 ∉ d.take (BUFFER_SIZE - 1)) →
    recvLoop s ins = Outcome.next s' →
    s'.bufferPacketIndex = s.bufferPacketIndex + ins.length ∧
      (ins ≠ [] → s.bufferPacketIndex + ins.length ≤ 128) := by
  induction ins with
  | nil =>
    intro s s' _ h
    simp only [recvLoop, Outcome.next.injEq] at h
    subst h
    simp
  | cons i ins ih =>
    intro s s' hnull h
    simp only [recvLoop] at h
    cases hi : iteration s i with
    | next s1 =>
      rw [hi] at h
      simp only at h
      obtain ⟨hlt, hidx⟩ := iteration_next_index hi (hnull i (by simp))
      obtain ⟨h1, h2⟩ := ih s1 s' (fun j hj => hnull j (by simp [hj])) h
      refine ⟨by rw [h1, hidx]; simp only [List.length_cons]; omega, fun _ => ?_⟩
      by_cases hnil : ins = []
      · subst hnil; simp only [List.length_cons, List.length_nil]; omega
      · have := h2 hnil
        simp only [List.length_cons]; omega
    | closed s1 => rw [hi] at h; simp at h
    | terminated c s1 => rw [hi] at h; simp at h

theorem iteration_record (s : State) (i : IterInput) (hc : i.calloc = true)
    (hlt : s.bufferPacketIndex < 128) :
    recvCount (iteration s i).state.effects = recvCount s.effects + 1 ∧
    (logErrors (iteration s i).state.effects = logErrors s.effects ∨
      logErrors (iteration s i).state.effects =
        logErrors s.effects ++ [cstr "Failed to receive data"] ∨
      logErrors (iteration s i).state.effects =
        logErrors s.effects ++ [cstr "Failed to read from file"]) := by
  obtain ⟨c, r, fe⟩ := i
  simp only at hc
  subst hc
  cases r with
  | error e =>
    rw [step_recvError s e fe hlt]
    simp [Outcome.state, recvCount_cleanup, logErrors_cleanup, recvCount, logErrors]
  | data d =>
    by_cases hne : d.take (BUFFER_SIZE - 1) = []
    · rw [iteration_closed s d fe hlt hne]
      simp [Outcome.state, closeFd, recvCall, storeBuffer, recvCount, logErrors]
    · rw [iteration_data s d fe hlt hne]
      simp only
      have h2 : ∀ t : State, t.effects = s.effects ++ [Effect.recv s.newSockFd] →
          recvCount t.effects = recvCount s.effects + 1 ∧
            logErrors t.effects = logErrors s.effects := by
        intro t ht
        rw [ht]; simp [recvCount, logErrors]
      have hs2 : (if 0 ∈ d.take (BUFFER_SIZE - 1)
              then bufferPacketFree
                (recvCall (storeBuffer s (fillBuffer (d.take (BUFFER_SIZE - 1)))))
              else recvCall (storeBuffer s (fillBuffer (d.take (BUFFER_SIZE - 1))))).effects
            = s.effects ++ [Effect.recv s.newSockFd] := by
        split <;> simp [recvCall, storeBuffer]
      obtain ⟨hr, hl⟩ := h2 _ hs2
      split
      · obtain ⟨hr2, hl2⟩ := appendAndEcho_record
          (if 0 ∈ d.take (BUFFER_SIZE - 1)
              then bufferPacketFree
                (recvCall (storeBuffer s (fillBuffer (d.take (BUFFER_SIZE - 1)))))
              else recvCall (storeBuffer s (fillBuffer (d.take (BUFFER_SIZE - 1))))) fe
        refine ⟨by rw [hr2, hr], ?_⟩
        rcases hl2 with hl2 | hl2
        · left; rw [hl2, hl]
        · right; right; rw [hl2, hl]
      · exact ⟨hr, Or.inl hl⟩

/-- C1 (code bug): on one connection, `"hello\n"` is answered by `"hello\n"`, but
`"world\n"` is then answered by `"hello\nhello\nworld\n"`: the table is not emptied
after a completed packet, so the first packet is written to the log a second time. -/
theorem accumulation_repeats_first_packet :
    ∃ s1 s2,
      iteration (initialState none) (received [104, 101, 108, 108, 111, 10]) = Outcome.next s1 ∧
      sentBytes (newEffects (initialState none) s1) = [104, 101, 108, 108, 111, 10] ∧
      s1.bufferPacketIndex = 1 ∧
      iteration s1 (received [119, 111, 114, 108, 100, 10]) = Outcome.next s2 ∧
      sentBytes (newEffects s1 s2) =
        [104, 101, 108, 108, 111, 10, 104, 101, 108, 108, 111, 10, 119, 111, 114, 108, 100, 10] ∧
      s2.log =
        some [104, 101, 108, 108, 111, 10, 104, 101, 108, 108, 111, 10,
          119, 111, 114, 108, 100, 10] ∧
      sentBytes (newEffects s1 s2) ≠
        [104, 101, 108, 108, 111, 10, 119, 111, 114, 108, 100, 10] := by
  obtain ⟨s1, hit1, hh1, hlog1, heff1, hfd1, _, _⟩ :=
    step_complete (initialState none) [] _ [104, 101, 108, 108, 111, 10]
      (delivers_received _) rfl (holds_initialState none) (by decide) (by simp) (by decide) (by decide) (by decide)
      (by decide)
  obtain ⟨s2, hit2, hh2, hlog2, heff2, _, _, _⟩ :=
    step_complete s1 [[104, 101, 108, 108, 111, 10]] _ [119, 111, 114, 108, 100, 10]
      (delivers_received _) rfl hh1 (by decide) (by decide) (by decide) (by decide) (by decide) (by decide)
  have hsent2 : sentBytes (newEffects s1 s2) =
      [104, 101, 108, 108, 111, 10, 104, 101, 108, 108, 111, 10,
        119, 111, 114, 108, 100, 10] := by
    rw [newEffects_of_eq (by rw [heff2, List.append_assoc, List.append_assoc])]
    simp [sentBytes, readBack_flatten, hlog1]
    rfl
  refine ⟨s1, s2, hit1, ?_, hh1.2.1, hit2, hsent2, ?_, ?_⟩
  · rw [newEffects_of_eq (by rw [heff1, List.append_assoc, List.append_assoc])]
    simp [sentBytes, readBack_flatten, initialState]
  · rw [hlog2, hlog1]
    simp [initialState]
  · rw [hsent2]
    decide

theorem mem_of_count_one {c : Nat} {l : List Nat} (h : l.count c = 1) : c ∈ l := by
  apply List.count_pos_iff.mp
  omega

theorem split_last (cs : List (List Nat)) (h : 1 ≤ cs.length) :
    ∃ init last, cs = init ++ [last] ∧ cs.dropLast = init ∧ cs.getLast? = some last := by
  have hne : cs ≠ [] := List.length_pos.mp (by omega)
  refine ⟨cs.dropLast, cs.getLast hne, (List.dropLast_append_getLast hne).symm, rfl, ?_⟩
  exact List.getLast?_eq_getLast cs hne

theorem delivers_take (ins : List IterInput) (ds : List (List Nat))
    (h : List.Forall₂ delivers ins ds) (j : Nat) :
    List.Forall₂ delivers (ins.take j) (ds.take j) := by
  induction h generalizing j with
  | nil => simp
  | cons hx _ ih =>
    cases j with
    | zero => simp
    | succ j => simpa using List.Forall₂.cons hx (ih j)

/-- C2: on a freshly accepted connection (empty chunk table) a packet delivered in `k`
receives (`1 ≤ k ≤ 128`, every chunk non-empty, at most 255 bytes and free of 0 bytes,
the first `k - 1` chunks without linefeed, the last one with exactly one linefeed, as
its last byte) causes no append during the first `k - 1` receives and exactly one
append on the last, of the bytes `c1 ++ ... ++ ck`; when no read of the log fails the
handler goes on with the log extended by these bytes; a single receive of the same
bytes causes the same single append. -/
theorem partial_reads_append_once (s : State) (cs : List (List Nat)) (ins : List IterInput)
    (hfresh : Holds s [])
    (hdel : List.Forall₂ delivers ins cs)
    (hk1 : 1 ≤ cs.length) (hk2 : cs.length ≤ 128)
    (hchunk : ∀ c ∈ cs, 0 < c.length ∧ c.length ≤ 255 ∧ 0 ∉ c)
    (hinit : ∀ c ∈ cs.dropLast, NEWLINE ∉ c)
    (hlast : ∀ c ∈ cs.getLast?, c.count NEWLINE = 1 ∧ c.getLast? = some NEWLINE) :
    (∀ j, j < cs.length →
      ∃ sj, recvLoop s (ins.take j) = Outcome.next sj ∧
        appended sj.effects = appended s.effects ∧ sj.log = s.log) ∧
    appended (recvLoop s ins).state.effects = appended s.effects ++ [cs.flatten] ∧
    ((∀ i ∈ ins, i.freadError = none) →
      ∃ s', recvLoop s ins = Outcome.next s' ∧
        s'.log = some (s.log.getD [] ++ cs.flatten)) ∧
    (∀ i, delivers i cs.flatten → cs.flatten.length ≤ 255 →
      appended (iteration s i).state.effects = appended s.effects ++ [cs.flatten]) := by
  obtain ⟨init, last, hcs, hdl, hgl⟩ := split_last cs hk1
  rw [hdl] at hinit
  rw [hgl] at hlast
  have hl := hlast last rfl
  have hnl : NEWLINE ∈ last := mem_of_count_one hl.1
  subst hcs
  have hlastc := hchunk last (by simp)
  have hlen : init.length + 1 ≤ 128 := by simpa using hk2
  have hinit' : ∀ c ∈ init, 0 < c.length ∧ c.length ≤ 255 ∧ 0 ∉ c ∧ NEWLINE ∉ c := by
    intro c hc
    have := hchunk c (by simp [hc])
    exact ⟨this.1, this.2.1, this.2.2, hinit c hc⟩
  have hpk := run_packet s [] init last ins hdel hfresh (by simp [SLOT_COUNT]; omega)
    (by simp) hinit' hlastc.1 hlastc.2.1 hlastc.2.2 hnl
  refine ⟨?_, ?_, ?_, ?_⟩
  · intro j hj
    have hj' : j ≤ init.length := by simp at hj; omega
    have hdj := delivers_take ins _ hdel j
    rw [List.take_append_of_le_length hj'] at hdj
    obtain ⟨sj, csj, hrun, _, _, _, hlog, heff, _, _, _⟩ :=
      run_quiet (ins.take j) (init.take j) hdj s [] hfresh (by simp [SLOT_COUNT]; omega)
        (fun d hd => by
          have := hinit' d (List.mem_of_mem_take hd)
          exact ⟨this.1, this.2.1, this.2.2.2⟩)
    refine ⟨sj, hrun, ?_, hlog⟩
    rw [heff]
    simp
  · simpa using hpk.1
  · intro hfe
    obtain ⟨s', hrun, _, hlog, _⟩ := hpk.2 hfe
    exact ⟨s', hrun, by simpa using hlog⟩
  · intro i hi hshort
    have hpos : 0 < (init ++ [last]).flatten.length := by
      simp
      have := hlastc.1
      omega
    have h0 : 0 ∉ (init ++ [last]).flatten := by
      intro hmem
      obtain ⟨c, hc, h0c⟩ := List.mem_flatten.mp hmem
      exact (hchunk c hc).2.2 h0c
    have hnl' : NEWLINE ∈ (init ++ [last]).flatten :=
      List.mem_flatten.mpr ⟨last, by simp, hnl⟩
    have := step_complete_appended s [] i _ hi hfresh (by simp [SLOT_COUNT]) (by simp)
      hpos hshort h0 hnl'
    simpa using this

/-- C3 (code bug): for the chunk `"a\nb"` on a fresh connection
`checkForNewlineCharInString` reports the first linefeed at position 1, but `main`
never reads that position: the bytes appended are the three bytes `"a\nb"` and not
the two bytes `"a\n"` that end at the first linefeed. -/
theorem framing_writes_past_first_linefeed :
    checkForNewlineCharInString (some (fillBuffer [97, 10, 98])) 3 (some (-1))
      = (true, some 1) ∧
    appended (iteration (initialState none) (received [97, 10, 98])).state.effects
      = [[97, 10, 98]] ∧
    appended (iteration (initialState none) (received [97, 10, 98])).state.effects
      ≠ [[97, 10]] := by
  have h := step_complete_appended (initialState none) [] (received [97, 10, 98]) [97, 10, 98]
    (delivers_received _) (holds_initialState none) (by decide) (by simp) (by decide)
    (by decide) (by decide) (by decide)
  have h2 : appended (iteration (initialState none) (received [97, 10, 98])).state.effects
      = [[97, 10, 98]] := by
    rw [h]; rfl
  refine ⟨by decide, h2, ?_⟩
  rw [h2]
  decide

theorem checkNull_of_mem (buffer : List Nat) (recvLen : Int)
    (h0 : 0 ∈ buffer.take recvLen.toNat) :
    checkForNullCharInString (some buffer) recvLen = true := by
  unfold checkForNullCharInString
  simp only
  split
  · rfl
  · exact firstIndexOf_isSome.mpr h0

/-- C4 (as amended): for every state of the chunk table and every received chunk with
a 0 byte among its `recvLen` bytes, `checkForNullCharInString` returns true and the
null check empties the chunk table: `bufferPacketIndex` is 0 and every slot that was in
use is `NULL`, so the bytes stored for the packet are discarded and the write loop
would write nothing; the log and the calls made are left as they were. -/
theorem null_check_empties_table (s : State) (buffer : List Nat) (recvLen : Int)
    (h0 : 0 ∈ buffer.take recvLen.toNat) :
    checkForNullCharInString (some buffer) recvLen = true ∧
    (nullCheck s buffer recvLen).bufferPacketIndex = 0 ∧
    (∀ i, i < s.bufferPacketIndex →
      (nullCheck s buffer recvLen).bufferPacket.getD i none = none) ∧
    packetBytes (nullCheck s buffer recvLen) = [] ∧
    (nullCheck s buffer recvLen).log = s.log ∧
    (nullCheck s buffer recvLen).effects = s.effects := by
  have hc := checkNull_of_mem buffer recvLen h0
  have hn : nullCheck s buffer recvLen = bufferPacketFree s := by
    simp only [nullCheck, hc, if_true]
  rw [hn]
  exact ⟨hc, rfl, fun i hi => bufferPacketFree_slot s i hi,
    packetBytes_of_index_zero _ rfl, rfl, rfl⟩

/-- C4 (witness): the amended statement at the table holding `"ab"` and `"c\0d"`. -/
theorem null_check_empties_table_witness :
    (nullCheck twoChunksStored (fillBuffer [99, 0, 100]) 3).bufferPacketIndex = 0 ∧
    packetBytes (nullCheck twoChunksStored (fillBuffer [99, 0, 100]) 3) = [] :=
  ⟨(null_check_empties_table twoChunksStored (fillBuffer [99, 0, 100]) 3 (by decide)).2.1,
   (null_check_empties_table twoChunksStored (fillBuffer [99, 0, 100]) 3 (by decide)).2.2.2.1⟩

/-- C4 (counterexample): with `"ab"` and `"c\0d"` stored, the null check reports the
0 byte and then the table is not as before: the index drops from 2 to 0 and slot 0,
which pointed to `"ab"`, is `NULL`. -/
theorem null_check_counterexample :
    checkForNullCharInString (some (fillBuffer [99, 0, 100])) 3 = true ∧
    twoChunksStored.bufferPacketIndex = 2 ∧
    (nullCheck twoChunksStored (fillBuffer [99, 0, 100]) 3).bufferPacketIndex = 0 ∧
    twoChunksStored.bufferPacket.getD 0 none = some (fillBuffer [97, 98]) ∧
    (nullCheck twoChunksStored (fillBuffer [99, 0, 100]) 3).bufferPacket.getD 0 none
      = none := by
  have hc : checkForNullCharInString (some (fillBuffer [99, 0, 100])) 3 = true := by decide
  have hn : nullCheck twoChunksStored (fillBuffer [99, 0, 100]) 3
      = bufferPacketFree twoChunksStored := by
    simp only [nullCheck, hc, if_true]
  have hi : twoChunksStored.bufferPacketIndex = 2 := by decide
  refine ⟨hc, hi, ?_, ?_, ?_⟩
  · rw [hn]; rfl
  · have hh : Holds twoChunksStored [[97, 98], [99, 0, 100]] :=
      ((holds_initialState none).store_chunk (by decide) [97, 98]).store_chunk (by decide) [99, 0, 100]
    rw [hh.1]
    rfl
  · rw [hn]
    exact bufferPacketFree_slot _ 0 (by rw [hi]; decide)

/-- C7 (code bug): with the shutdown flag set, a `recv` that fails with `EINTR` ends
the process with `EXIT_FAILURE` through `logAndExit`, whereas an `accept` failing in
the same way in the same state ends it with `EXIT_SUCCESS`. -/
theorem interrupted_receive_exits_with_failure :
    stoppedServer.stop = true ∧
    (iteration stoppedServer ⟨true, RecvResult.error EINTR, none⟩).exitCode
      = some EXIT_FAILURE ∧
    Effect.logError (cstr "Failed to receive data") ∈
      (iteration stoppedServer ⟨true, RecvResult.error EINTR, none⟩).state.effects ∧
    (acceptStep stoppedServer (-1) EINTR).loc = Loc.exited EXIT_SUCCESS ∧
    EXIT_FAILURE ≠ EXIT_SUCCESS := by
  have h := step_recvError stoppedServer EINTR none (by decide)
  refine ⟨rfl, ?_, ?_, ?_, by decide⟩
  · rw [h]; rfl
  · rw [h]
    simp [Outcome.state, cleanup_effects]
  · simp [acceptStep, stoppedServer, finish, EINTR]

/-- C8 (as amended): when `accept` fails, the server leaves the accept loop, runs
`cleanup` and ends with status `EXIT_SUCCESS` if and only if `errno` is `EINTR` and
the shutdown flag is set; `cleanup` then closes the listening socket when its
descriptor is > 0 and removes the log file.  Every other accept failure is reported
by `logAndExit` and ends the process with `EXIT_FAILURE`. -/
theorem accept_failure_paths (s : State) (ret errno : Int) (hret : ret < 0) :
    ((acceptStep s ret errno).loc = Loc.exited EXIT_SUCCESS ↔
      (errno = EINTR ∧ s.stop = true)) ∧
    ((errno = EINTR ∧ s.stop = true) →
      acceptStep s ret errno = ⟨Loc.exited EXIT_SUCCESS, cleanup { s with newSockFd := ret }⟩ ∧
      (acceptStep s ret errno).st.effects =
        s.effects ++ (if 0 < s.serverSockFd then [Effect.close s.serverSockFd] else []) ++
          [Effect.remove] ∧
      (acceptStep s ret errno).st.log = none) ∧
    (¬ (errno = EINTR ∧ s.stop = true) →
      (acceptStep s ret errno).loc = Loc.exited EXIT_FAILURE ∧
      (acceptStep s ret errno).st.effects =
        s.effects ++ [Effect.logError (cstr "Failed to accept connection")] ++
          (if 0 < s.serverSockFd then [Effect.close s.serverSockFd] else []) ++
          [Effect.remove] ∧
      (acceptStep s ret errno).st.log = none) := by
  have hnot : ¬ (0 < ret) := by omega
  by_cases hc : errno = EINTR ∧ s.stop = true
  · have hstep : acceptStep s ret errno
        = ⟨Loc.exited EXIT_SUCCESS, cleanup { s with newSockFd := ret }⟩ := by
      simp only [acceptStep, hret, hc, and_self, if_true, finish]
    refine ⟨?_, ?_, ?_⟩
    · rw [hstep]; simp [hc]
    · intro _
      refine ⟨hstep, ?_, ?_⟩
      · rw [hstep, cleanup_effects]; simp [hnot]
      · rw [hstep]; rfl
    · intro h; exact absurd hc h
  · have hstep : acceptStep s ret errno
        = ⟨Loc.exited EXIT_FAILURE, cleanup { s with newSockFd := ret, effects :=
            s.effects ++ [Effect.logError (cstr "Failed to accept connection")] }⟩ := by
      simp only [acceptStep, hret, hc, if_true, if_false, exitConfig,
        logAndExit_short _ _ _ strlen_acceptMsg]
    refine ⟨?_, ?_, ?_⟩
    · rw [hstep]
      simp [hc, EXIT_FAILURE, EXIT_SUCCESS]
    · intro h; exact absurd h hc
    · intro _
      refine ⟨by rw [hstep], ?_, ?_⟩
      · rw [hstep, cleanup_effects]; simp [hnot]
      · rw [hstep]; rfl

/-- C8 (counterexample): when `socket` has returned descriptor 0 the server reaches
the accept loop; the shutdown signal while idle then ends it with `EXIT_SUCCESS`,
but the only call `cleanup` makes is the removal of the log file: the listening
socket is not closed. -/
theorem accept_failure_counterexample :
    (startup none 0 0).loc = Loc.accepting ∧
    (startup none 0 0).st.serverSockFd = 0 ∧
    (serverRun (startup none 0 0) [Event.signal, Event.accept (-1) EINTR]).loc
      = Loc.exited EXIT_SUCCESS ∧
    (serverRun (startup none 0 0) [Event.signal, Event.accept (-1) EINTR]).st.effects
      = [Effect.remove] ∧
    Effect.close 0 ∉
      (serverRun (startup none 0 0) [Event.signal, Event.accept (-1) EINTR]).st.effects := by
  have hstart : startup none 0 0
      = ⟨Loc.accepting, { initialState none with serverSockFd := 0 }⟩ := by
    simp [startup, loopHead, initialState]
  have hrun : serverRun (startup none 0 0) [Event.signal, Event.accept (-1) EINTR]
      = ⟨Loc.exited EXIT_SUCCESS,
          cleanup { initialState none with serverSockFd := 0, stop := true,
                                           newSockFd := -1 }⟩ := by
    rw [hstart]
    simp [serverRun, serverStep, acceptStep, finish, EINTR]
  have heff : (serverRun (startup none 0 0)
      [Event.signal, Event.accept (-1) EINTR]).st.effects = [Effect.remove] := by
    rw [hrun, cleanup_effects]
    simp [initialState]
  refine ⟨by rw [hstart], by rw [hstart], by rw [hrun], heff, ?_⟩
  rw [heff]
  decide

/-- C8 (witness): the shutdown signal while idle, with listening socket 3. -/
theorem accept_failure_paths_witness :
    acceptStep stoppedServer (-1) EINTR
      = ⟨Loc.exited EXIT_SUCCESS, cleanup { stoppedServer with newSockFd := -1 }⟩ ∧
    (acceptStep stoppedServer (-1) EINTR).st.effects = [Effect.close 3, Effect.remove] :=
  ⟨((accept_failure_paths stoppedServer (-1) EINTR (by decide)).2.1 ⟨rfl, rfl⟩).1,
   by
    have h := ((accept_failure_paths stoppedServer (-1) EINTR (by decide)).2.1 ⟨rfl, rfl⟩).2.1
    rw [h]
    simp [stoppedServer, initialState]⟩

theorem strlen_replicate (n c : Nat) (hc : c ≠ 0) : strlen (List.replicate n c) = n := by
  have h : cString (List.replicate n c) = List.replicate n c := by
    unfold cString
    rw [List.takeWhile_eq_self_iff]
    intro x hx
    rw [List.eq_of_mem_replicate hx]
    simpa using hc
  rw [strlen, h, List.length_replicate]

/-- C9 (as amended): for every message shorter than 192 bytes, every exit status and
every process state, `logAndExit` reports the error, runs `cleanup` exactly once
(chunk table freed, listening socket closed when its descriptor is > 0, connection
socket closed when its descriptor is > 0, one removal of the log file) and ends the
process with the status it was given. -/
theorem fatal_path_runs_cleanup (msg : List Nat) (exit_code : Int) (s : State)
    (hmsg : strlen msg < 192) :
    (logAndExit msg exit_code s).1 = exit_code ∧
    (logAndExit msg exit_code s).2.effects =
      s.effects ++ [Effect.logError msg] ++
        (if 0 < s.serverSockFd then [Effect.close s.serverSockFd] else []) ++
        (if 0 < s.newSockFd then [Effect.close s.newSockFd] else []) ++ [Effect.remove] ∧
    (logAndExit msg exit_code s).2.bufferPacketIndex = 0 ∧
    (∀ i, i < s.bufferPacketIndex →
      (logAndExit msg exit_code s).2.bufferPacket.getD i none = none) ∧
    (logAndExit msg exit_code s).2.log = none := by
  rw [logAndExit_short msg exit_code s hmsg]
  refine ⟨rfl, ?_, by simp, ?_, rfl⟩
  · rw [cleanup_effects]
  · intro i hi
    rw [cleanup_table]
    exact bufferPacketFree_slot _ i hi

/-- C9 (witness): the amended statement for the message of a failed `accept`. -/
theorem fatal_path_runs_cleanup_witness :
    (logAndExit (cstr "Failed to accept connection") EXIT_FAILURE runningServer).1
      = EXIT_FAILURE ∧
    (logAndExit (cstr "Failed to accept connection") EXIT_FAILURE runningServer).2.log
      = none :=
  ⟨(fatal_path_runs_cleanup (cstr "Failed to accept connection") EXIT_FAILURE runningServer
      (by decide)).1,
   (fatal_path_runs_cleanup (cstr "Failed to accept connection") EXIT_FAILURE runningServer
      (by decide)).2.2.2.2⟩

/-- C9 (counterexample): for a message of 192 bytes `logAndExit` ends the process
without running `cleanup`: no call is made, the log file is still there, and the
status is `EXIT_FAILURE` although status 7 was given. -/
theorem fatal_path_counterexample :
    strlen (List.replicate 192 65) = 192 ∧
    logAndExit (List.replicate 192 65) 7 runningServer = (EXIT_FAILURE, runningServer) ∧
    runningServer.effects = [] ∧ runningServer.log = some [120, 10] ∧
    EXIT_FAILURE ≠ 7 := by
  have h : strlen (List.replicate 192 65) = 192 := strlen_replicate 192 65 (by decide)
  exact ⟨h, logAndExit_long _ _ _ (by rw [h]), rfl, rfl, by decide⟩

theorem holds_of_empty (s : State) (ht : s.bufferPacket = emptyTable)
    (hi : s.bufferPacketIndex = 0) : Holds s [] :=
  ⟨by rw [ht]; rfl, hi, by simp⟩

@[simp] theorem logErrors_recvs (fd : Int) (n : Nat) :
    logErrors (List.replicate n (Effect.recv fd)) = [] := by
  induction n with
  | zero => rfl
  | succ n ih => simp [List.replicate_succ, logErrors, ih]

@[simp] theorem recvCount_recvs (fd : Int) (n : Nat) :
    recvCount (List.replicate n (Effect.recv fd)) = n := by
  induction n with
  | zero => rfl
  | succ n ih => simp [List.replicate_succ, recvCount, ih]

theorem full_table_run (s : State) (h : Holds s []) :
    ∃ s1, recvLoop s ((List.replicate 128 [97]).map received) = Outcome.next s1 ∧
      s1.bufferPacketIndex = 128 ∧ s1.log = s.log ∧
      s1.effects = s.effects ++ List.replicate 128 (Effect.recv s.newSockFd) := by
  obtain ⟨s1, cs1, hrun, hh1, _, hc1, hlog1, heff1, _, _, _⟩ :=
    run_quiet _ (List.replicate 128 [97]) (forall₂_received _) s [] h
      (by simp [SLOT_COUNT])
      (fun d hd => by
        rw [List.eq_of_mem_replicate hd]
        exact ⟨by decide, by decide, by decide⟩)
  have hcs : cs1 = [] ++ List.replicate 128 [97] :=
    hc1 (fun d hd => by rw [List.eq_of_mem_replicate hd]; decide)
  refine ⟨s1, hrun, ?_, hlog1, ?_⟩
  · rw [hh1.2.1, hcs]; simp
  · simpa using heff1

theorem list_ne_append_singleton {α : Type} (l : List α) (x : α) : l ≠ l ++ [x] := by
  intro h
  have := congrArg List.length h
  simp at this

theorem limit_report_iff (s : State) (i : IterInput) :
    logErrors (iteration s i).state.effects =
        logErrors s.effects ++ [cstr "Buffer packet index exceeded limit"] ↔
      (i.calloc = true ∧ 128 ≤ s.bufferPacketIndex) := by
  cases hc : i.calloc with
  | false =>
    rw [step_allocFail s i hc]
    simp only [Outcome.state, logErrors_cleanup, logErrors_append, logErrors]
    constructor
    · intro h
      have := List.append_cancel_left h
      exact absurd this (by decide)
    · intro h; exact absurd h.1 (by simp)
  | true =>
    by_cases hidx : 128 ≤ s.bufferPacketIndex
    · rw [step_limit s i hc hidx]
      simp [Outcome.state, logErrors_cleanup, logErrors, hidx]
    · have hlt : s.bufferPacketIndex < 128 := by omega
      obtain ⟨_, hl⟩ := iteration_record s i hc hlt
      constructor
      · intro h
        rcases hl with hl | hl | hl
        · rw [hl] at h
          exact absurd h (list_ne_append_singleton _ _)
        · rw [hl] at h
          exact absurd (List.append_cancel_left h) (by decide)
        · rw [hl] at h
          exact absurd (List.append_cancel_left h) (by decide)
      · intro h; exact absurd h.2 hidx

theorem store_in_table (s : State) (h : TableOk s) (hlt : s.bufferPacketIndex < 128)
    (b : List Nat) :
    (storeBuffer s b).bufferPacket.getD s.bufferPacketIndex none = some b ∧
      (storeBuffer s b).bufferPacketIndex = s.bufferPacketIndex + 1 := by
  obtain ⟨_, hlen⟩ := h
  simp only [SLOT_COUNT] at hlen
  refine ⟨?_, ?_⟩
  · simp only [storeBuffer, List.getD_eq_getElem?_getD]
    rw [List.getElem?_set_self (by omega)]
    rfl
  · simp only [storeBuffer]; omega

/-! ## The writes into the table -/

@[simp] theorem bufferPacketFree_stores (s : State) : (bufferPacketFree s).stores = s.stores := rfl

theorem cleanup_stores (s : State) : (cleanup s).stores = s.stores := by
  unfold cleanup
  by_cases h1 : 0 < s.serverSockFd <;> by_cases h2 : 0 < s.newSockFd <;>
    simp [h1, h2, closeFd]

theorem logAndExit_stores (msg : List Nat) (code : Int) (s : State) :
    (logAndExit msg code s).2.stores = s.stores := by
  unfold logAndExit
  split
  · rfl
  · rw [cleanup_stores]

theorem appendAndEcho_stores (s : State) (fe : Option Nat) :
    (appendAndEcho s fe).state.stores = s.stores := by
  unfold appendAndEcho
  simp only
  split
  · show (logAndExit _ _ _).2.stores = _
    rw [logAndExit_stores]
  · rfl

theorem iteration_stores (s : State) (i : IterInput) :
    (iteration s i).state.stores = s.stores ∨
      (s.bufferPacketIndex < 128 ∧
        (iteration s i).state.stores = s.stores ++ [s.bufferPacketIndex]) := by
  obtain ⟨c, r, fe⟩ := i
  cases c with
  | false =>
    left
    rw [step_allocFail s _ rfl]
    simp [Outcome.state, cleanup_stores]
  | true =>
    by_cases hidx : 128 ≤ s.bufferPacketIndex
    · left
      rw [step_limit s _ rfl hidx]
      simp [Outcome.state, cleanup_stores]
    · have hlt : s.bufferPacketIndex < 128 := by omega
      right
      refine ⟨hlt, ?_⟩
      cases r with
      | error e =>
        rw [step_recvError s e fe hlt]
        simp [Outcome.state, cleanup_stores, recvCall, storeBuffer]
      | data d =>
        by_cases hne : d.take (BUFFER_SIZE - 1) = []
        · rw [iteration_closed s d fe hlt hne]
          simp [Outcome.state, closeFd, recvCall, storeBuffer]
        · rw [iteration_data s d fe hlt hne]
          simp only
          have h2 : (if 0 ∈ d.take (BUFFER_SIZE - 1)
              then bufferPacketFree
                (recvCall (storeBuffer s (fillBuffer (d.take (BUFFER_SIZE - 1)))))
              else recvCall (storeBuffer s (fillBuffer (d.take (BUFFER_SIZE - 1))))).stores
                = s.stores ++ [s.bufferPacketIndex] := by
            split <;> simp [recvCall, storeBuffer]
          split
          · rw [appendAndEcho_stores, h2]
          · exact h2

theorem iteration_storesOk {s : State} (h : StoresOk s) (i : IterInput) :
    StoresOk (iteration s i).state := by
  intro k hk
  rcases iteration_stores s i with heq | ⟨hlt, heq⟩
  · rw [heq] at hk; exact h k hk
  · rw [heq] at hk
    rcases List.mem_append.mp hk with hk | hk
    · exact h k hk
    · simp only [List.mem_singleton] at hk
      subst hk
      exact hlt

theorem loopHead_stores (s : State) : (loopHead s).st.stores = s.stores := by
  unfold loopHead
  split
  · exact cleanup_stores s
  · rfl

theorem acceptStep_stores (s : State) (ret errno : Int) :
    (acceptStep s ret errno).st.stores = s.stores := by
  unfold acceptStep
  simp only
  split
  · split
    · show (cleanup _).stores = _
      rw [cleanup_stores]
    · show (logAndExit _ _ _).2.stores = _
      rw [logAndExit_stores]
  · rfl

theorem serverStep_storesOk {c : Config} (h : StoresOk c.st) (e : Event) :
    StoresOk (serverStep c e).st := by
  obtain ⟨loc, s⟩ := c
  have hsame : ∀ t : State, t.stores = s.stores → StoresOk t := by
    intro t ht k hk
    rw [ht] at hk
    exact h k hk
  cases loc <;> cases e <;> simp only [serverStep]
  all_goals first
    | exact h
    | exact hsame _ rfl
    | exact hsame _ (acceptStep_stores _ _ _)
    | skip
  rename_i i
  have := iteration_storesOk h i
  cases hi : iteration s i with
  | next s1 => rw [hi] at this; exact this
  | closed s1 =>
    rw [hi] at this
    intro k hk
    rw [loopHead_stores] at hk
    exact this k hk
  | terminated code s1 => rw [hi] at this; exact this

theorem serverRun_storesOk (es : List Event) : ∀ c : Config, StoresOk c.st →
    StoresOk (serverRun c es).st := by
  induction es with
  | nil => intro c h; exact h
  | cons e es ih =>
    intro c h
    exact ih (serverStep c e) (serverStep_storesOk h e)

theorem startup_stores (log : Option (List Nat)) (sockRet bindRet : Int) :
    (startup log sockRet bindRet).st.stores = [] := by
  unfold startup
  simp only
  split
  · show (logAndExit _ _ _).2.stores = _
    rw [logAndExit_stores]; rfl
  · split
    · show (logAndExit _ _ _).2.stores = _
      rw [logAndExit_stores]; rfl
    · rw [loopHead_stores]; rfl

theorem reachable_storesOk {c : Config} (h : Reachable c) : StoresOk c.st := by
  obtain ⟨log, sockRet, bindRet, es, rfl⟩ := h
  refine serverRun_storesOk es _ ?_
  intro k hk
  rw [startup_stores] at hk
  simp at hk

/-- C10 (as amended): an iteration of the receive loop whose buffer allocation
succeeded takes the buffer-limit fatal path (it reports "Buffer packet index exceeded
limit", ends the process with `EXIT_FAILURE` and makes no `recv` call) if and only if
it was entered with `bufferPacketIndex >= 128`.  In every reachable state
`bufferPacketIndex <= 128` and the table has 128 slots; an iteration that gets its
buffer with `bufferPacketIndex < 128` stores it in the slot of that index, inside the
table, and makes one `recv` call; and when chunks free of 0 bytes are received one
after the other starting from an empty table, there are at most 128 of them.  An
iteration writes into the table at most once, at the index it was entered with, and
only when that index is below 128; so in every reachable state every write into the
table made so far was at an index < 128, and the slots the loop of `bufferPacketFree`
runs over are below 128 as well. -/
theorem slot_limit :
    (∀ (s : State) (i : IterInput),
      logErrors (iteration s i).state.effects =
          logErrors s.effects ++ [cstr "Buffer packet index exceeded limit"] ↔
        (i.calloc = true ∧ 128 ≤ s.bufferPacketIndex)) ∧
    (∀ (s : State) (i : IterInput), i.calloc = true →
      (((iteration s i).exitCode = some EXIT_FAILURE ∧
          recvCount (iteration s i).state.effects = recvCount s.effects) ↔
        128 ≤ s.bufferPacketIndex)) ∧
    (∀ (s : State) (i : IterInput), i.calloc = true → 128 ≤ s.bufferPacketIndex →
      (iteration s i).exitCode = some EXIT_FAILURE ∧
        recvCount (iteration s i).state.effects = recvCount s.effects) ∧
    (∀ c : Config, Reachable c →
      c.st.bufferPacketIndex ≤ 128 ∧ c.st.bufferPacket.length = 128) ∧
    (∀ (c : Config) (i : IterInput) (b : List Nat), Reachable c → i.calloc = true →
      c.st.bufferPacketIndex < 128 →
      (storeBuffer c.st b).bufferPacket.getD c.st.bufferPacketIndex none = some b ∧
        (storeBuffer c.st b).bufferPacketIndex = c.st.bufferPacketIndex + 1 ∧
        recvCount (iteration c.st i).state.effects = recvCount c.st.effects + 1) ∧
    (∀ (s s' : State) (ins : List IterInput), s.bufferPacketIndex = 0 →
      (∀ i ∈ ins, ∀ d, i.recv = RecvResult.data d → 0 ∉ d.take (BUFFER_SIZE - 1)) →
      recvLoop s ins = Outcome.next s' →
      ins.length ≤ 128 ∧ s'.bufferPacketIndex = ins.length) ∧
    (∀ (s : State) (i : IterInput),
      (iteration s i).state.stores = s.stores ∨
        (s.bufferPacketIndex < 128 ∧
          (iteration s i).state.stores = s.stores ++ [s.bufferPacketIndex])) ∧
    (∀ c : Config, Reachable c → ∀ k ∈ c.st.stores, k < 128) ∧
    (∀ c : Config, Reachable c → ∀ k ∈ List.range c.st.bufferPacketIndex, k < 128) := by
  refine ⟨limit_report_iff, ?_, ?_, ?_, ?_, ?_, iteration_stores,
    fun c hc => reachable_storesOk hc, ?_⟩
  rotate_right
  · intro c hc k hk
    have := (reachable_tableOk hc).1
    simp only [SLOT_COUNT] at this
    have hk2 := List.mem_range.mp hk
    omega
  · intro s i hc
    constructor
    · intro h
      by_cases hidx : 128 ≤ s.bufferPacketIndex
      · exact hidx
      · have := (iteration_record s i hc (by omega)).1
        omega
    · intro hidx
      rw [step_limit s i hc hidx]
      simp [Outcome.exitCode, Outcome.state, recvCount_cleanup, recvCount]
  · intro s i hc hidx
    rw [step_limit s i hc hidx]
    simp [Outcome.exitCode, Outcome.state, recvCount_cleanup, recvCount]
  · intro c hc
    exact reachable_tableOk hc
  · intro c i b hr hc hlt
    have hs := store_in_table c.st (reachable_tableOk hr) hlt b
    exact ⟨hs.1, hs.2, (iteration_record c.st i hc hlt).1⟩
  · intro s s' ins h0 hnull hrun
    obtain ⟨h1, h2⟩ := recvLoop_next_index ins s s' hnull hrun
    rw [h0] at h1 h2
    refine ⟨?_, by simpa using h1⟩
    by_cases hnil : ins = []
    · subst hnil; simp
    · simpa using h2 hnil

/-- C10 (witness): the amended statement at the start of the server and at a full
table. -/
theorem slot_limit_witness :
    (startup none 3 0).st.bufferPacketIndex ≤ 128 ∧
    (logErrors
        (iteration { runningServer with bufferPacketIndex := 128 } (received [97])).state.effects
      = logErrors ({ runningServer with bufferPacketIndex := 128 } : State).effects ++
          [cstr "Buffer packet index exceeded limit"]) :=
  ⟨(slot_limit.2.2.2.1 (startup none 3 0) ⟨none, 3, 0, [], rfl⟩).1,
   (slot_limit.1 { runningServer with bufferPacketIndex := 128 } (received [97])).mpr
      ⟨rfl, by decide⟩⟩

/-- C10 (counterexample): after 128 chunks `"a"` on a fresh connection the index is
128; when `calloc` then fails, the iteration ends the process through the
allocation-failure report and not through the buffer-limit path.  And on a fresh
connection, where the index is 0, a failing `calloc` ends the process with
`EXIT_FAILURE` before any `recv` call. -/
theorem slot_limit_counterexample :
    (runningServer.bufferPacketIndex = 0 ∧
      (iteration runningServer ⟨false, RecvResult.data [97], none⟩).exitCode
        = some EXIT_FAILURE ∧
      recvCount (iteration runningServer ⟨false, RecvResult.data [97], none⟩).state.effects
        = recvCount runningServer.effects) ∧
    ∃ s1, recvLoop runningServer ((List.replicate 128 [97]).map received) = Outcome.next s1 ∧
      s1.bufferPacketIndex = 128 ∧
      (iteration s1 ⟨false, RecvResult.data [97], none⟩).exitCode = some EXIT_FAILURE ∧
      logErrors (iteration s1 ⟨false, RecvResult.data [97], none⟩).state.effects
        = [cstr "Failed to allocate memory for buffer"] ∧
      logErrors (iteration s1 ⟨false, RecvResult.data [97], none⟩).state.effects
        ≠ logErrors s1.effects ++ [cstr "Buffer packet index exceeded limit"] := by
  refine ⟨⟨rfl, by rw [step_allocFail runningServer _ rfl]; rfl, ?_⟩, ?_⟩
  · rw [step_allocFail runningServer _ rfl]
    simp [Outcome.state, recvCount_cleanup, recvCount]
  obtain ⟨s1, hrun, hidx, _, heff⟩ := full_table_run runningServer (holds_of_empty _ rfl rfl)
  have hl1 : logErrors s1.effects = [] := by
    rw [heff]; simp [runningServer, initialState, logErrors]
  have hl : logErrors (iteration s1 ⟨false, RecvResult.data [97], none⟩).state.effects
      = [cstr "Failed to allocate memory for buffer"] := by
    rw [step_allocFail s1 _ rfl]
    simp [Outcome.state, logErrors_cleanup, logErrors, hl1]
  refine ⟨s1, hrun, hidx, ?_, hl, ?_⟩
  · rw [step_allocFail s1 _ rfl]; rfl
  · rw [hl, hl1]
    decide

/-! ## The log along a run of the server -/

theorem stored_fields (s : State) (got : List Nat) :
    (if 0 ∈ got then bufferPacketFree (recvCall (storeBuffer s (fillBuffer got)))
      else recvCall (storeBuffer s (fillBuffer got))).effects
        = s.effects ++ [Effect.recv s.newSockFd] ∧
    (if 0 ∈ got then bufferPacketFree (recvCall (storeBuffer s (fillBuffer got)))
      else recvCall (storeBuffer s (fillBuffer got))).log = s.log ∧
    (if 0 ∈ got then bufferPacketFree (recvCall (storeBuffer s (fillBuffer got)))
      else recvCall (storeBuffer s (fillBuffer got))).newSockFd = s.newSockFd := by
  split <;> simp [recvCall, storeBuffer]

theorem iteration_next_cases {s s' : State} {i : IterInput}
    (hstep : iteration s i = Outcome.next s') :
    ∃ s2 : State, s2.effects = s.effects ++ [Effect.recv s.newSockFd] ∧ s2.log = s.log ∧
      s2.newSockFd = s.newSockFd ∧
      (s' = s2 ∨ appendAndEcho s2 i.freadError = Outcome.next s') := by
  obtain ⟨d, _, _, _, hcase⟩ := iteration_next_inv hstep
  obtain ⟨heff, hlog, hfd⟩ := stored_fields s (d.take (BUFFER_SIZE - 1))
  rcases hcase with ⟨_, hs'⟩ | ⟨_, hecho⟩
  · exact ⟨_, heff, hlog, hfd, Or.inl hs'⟩
  · exact ⟨_, heff, hlog, hfd, Or.inr hecho⟩

theorem completed_step {s s' : State} {i : IterInput} {A : List Nat}
    (hstep : iteration s i = Outcome.next s')
    (hA : appended s'.effects = appended s.effects ++ [A]) :
    s'.log = some (s.log.getD [] ++ A) ∧
    s'.effects = s.effects ++ [Effect.recv s.newSockFd, Effect.append A] ++
      (readBack (s.log.getD [] ++ A)).map (Effect.send s.newSockFd) := by
  obtain ⟨s2, heff, hlog, hfd, hcase⟩ := iteration_next_cases hstep
  rcases hcase with hs' | hecho
  · rw [hs', heff] at hA
    simp only [appended_append, appended, List.append_nil] at hA
    exact absurd hA (list_ne_append_singleton _ _)
  · have hs' := appendAndEcho_next hecho
    have hA2 : appended s'.effects = appended s.effects ++ [packetBytes s2] := by
      rw [hs']
      simp [heff, appended]
    rw [hA2] at hA
    have hW : packetBytes s2 = A := by
      have := List.append_cancel_left hA
      simpa using this
    rw [hs']
    simp [heff, hlog, hfd, hW]

theorem iteration_next_log {s s' : State} {i : IterInput}
    (hstep : iteration s i = Outcome.next s') :
    ∃ t, s'.log.getD [] = s.log.getD [] ++ t := by
  obtain ⟨s2, _, hlog, _, hcase⟩ := iteration_next_cases hstep
  rcases hcase with hs' | hecho
  · exact ⟨[], by rw [hs', hlog]; simp⟩
  · have hs' := appendAndEcho_next hecho
    refine ⟨packetBytes s2, ?_⟩
    rw [hs']
    simp only [hlog, Option.getD_some]

theorem serverStep_exited (c : Config) (e : Event) (code : Int) (h : c.loc = Loc.exited code) :
    serverStep c e = c := by
  obtain ⟨loc, s⟩ := c
  simp only at h
  subst h
  cases e <;> rfl

theorem serverRun_exited (es : List Event) (c : Config) (code : Int)
    (h : c.loc = Loc.exited code) : serverRun c es = c := by
  induction es with
  | nil => rfl
  | cons e es ih =>
    simp only [serverRun, List.foldl_cons] at ih ⊢
    rw [serverStep_exited c e code h]
    exact ih

theorem serverStep_log (c : Config) (e : Event)
    (h : ∀ code, (serverStep c e).loc ≠ Loc.exited code) :
    ∃ t, (serverStep c e).st.log.getD [] = c.st.log.getD [] ++ t := by
  obtain ⟨loc, s⟩ := c
  cases loc with
  | exited code => exact ⟨[], by rw [serverStep_exited _ e code rfl]; simp⟩
  | accepting =>
    cases e with
    | signal => exact ⟨[], by simp [serverStep]⟩
    | iter i => exact ⟨[], by simp [serverStep]⟩
    | accept ret errno =>
      simp only [serverStep] at h ⊢
      unfold acceptStep at h ⊢
      simp only at h ⊢
      split at h
      · split at h
        · exact absurd rfl (h EXIT_SUCCESS)
        · exact absurd rfl (h _)
      · rename_i hret
        simp only [hret, if_false]
        exact ⟨[], by simp⟩
  | receiving =>
    cases e with
    | signal => exact ⟨[], by simp [serverStep]⟩
    | accept ret errno => exact ⟨[], by simp [serverStep]⟩
    | iter i =>
      simp only [serverStep] at h ⊢
      cases hi : iteration s i with
      | next s1 =>
        simp only [hi]
        exact iteration_next_log hi
      | closed s1 =>
        simp only [hi] at h ⊢
        have hlog := (iteration_closed_inv hi).1
        unfold loopHead at h ⊢
        split at h
        · exact absurd rfl (h EXIT_SUCCESS)
        · rename_i hstop
          simp only [hstop]
          exact ⟨[], by simp [hlog]⟩
      | terminated code s1 =>
        simp only [hi] at h
        exact absurd rfl (h code)

theorem serverRun_log (es : List Event) : ∀ c : Config,
    (∀ code, (serverRun c es).loc ≠ Loc.exited code) →
    ∃ t, (serverRun c es).st.log.getD [] = c.st.log.getD [] ++ t := by
  induction es with
  | nil => intro c _; exact ⟨[], by simp [serverRun]⟩
  | cons e es ih =>
    intro c h
    have hrun : serverRun c (e :: es) = serverRun (serverStep c e) es := rfl
    rw [hrun] at h ⊢
    have hstep : ∀ code, (serverStep c e).loc ≠ Loc.exited code := by
      intro code hex
      rw [serverRun_exited es _ code hex] at h
      exact h code hex
    obtain ⟨t1, h1⟩ := serverStep_log c e hstep
    obtain ⟨t2, h2⟩ := ih (serverStep c e) h
    exact ⟨t1 ++ t2, by rw [h2, h1, List.append_assoc]⟩

/-- C5: for every prior log content `L` and every iteration that completes a packet
and writes the bytes `A` in its append session, the log afterwards is `L ++ A`, the
read-back loop ends, its blocks are non-empty and at most 256 bytes long, and their
concatenation, which is what is handed to `send`, is `L ++ A`; and whatever the
server does afterwards without ending, on this connection or on later ones, the reply
to a later completed packet starts with `L ++ A`, so it contains `A`. -/
theorem append_then_echo (s s' : State) (i : IterInput) (A : List Nat)
    (hstep : iteration s i = Outcome.next s')
    (hA : appended s'.effects = appended s.effects ++ [A]) :
    s'.log = some (s.log.getD [] ++ A) ∧
    s'.effects = s.effects ++ [Effect.recv s.newSockFd, Effect.append A] ++
      (readBack (s.log.getD [] ++ A)).map (Effect.send s.newSockFd) ∧
    (readBack (s.log.getD [] ++ A)).flatten = s.log.getD [] ++ A ∧
    (∀ b ∈ readBack (s.log.getD [] ++ A), 0 < b.length ∧ b.length ≤ 256) ∧
    sentBytes s'.effects = sentBytes s.effects ++ (s.log.getD [] ++ A) ∧
    (∀ (es : List Event) (s2 s3 : State) (i2 : IterInput) (A2 : List Nat),
      serverRun ⟨Loc.receiving, s'⟩ es = ⟨Loc.receiving, s2⟩ →
      iteration s2 i2 = Outcome.next s3 →
      appended s3.effects = appended s2.effects ++ [A2] →
      ∃ t, sentBytes s3.effects = sentBytes s2.effects ++ ((s.log.getD [] ++ A) ++ t)) := by
  obtain ⟨hlog, heff⟩ := completed_step hstep hA
  have hsent : ∀ {u u' : State} {B : List Nat},
      u'.effects = u.effects ++ [Effect.recv u.newSockFd, Effect.append B] ++
        (readBack (u.log.getD [] ++ B)).map (Effect.send u.newSockFd) →
      sentBytes u'.effects = sentBytes u.effects ++ (u.log.getD [] ++ B) := by
    intro u u' B h
    rw [h]
    simp [sentBytes, readBack_flatten]
  refine ⟨hlog, heff, readBack_flatten _, readBack_blocks _, hsent heff, ?_⟩
  intro es s2 s3 i2 A2 hrun hstep2 hA2
  obtain ⟨_, heff2⟩ := completed_step hstep2 hA2
  obtain ⟨t, ht⟩ := serverRun_log es ⟨Loc.receiving, s'⟩ (by rw [hrun]; intro code; simp)
  rw [hrun] at ht
  simp only [hlog, Option.getD_some] at ht
  refine ⟨t ++ A2, ?_⟩
  rw [hsent heff2, ht]
  simp [List.append_assoc]

/-- C2 (witness): the packet `"hel\n"` delivered as `"he"` and `"l\n"` on a fresh
connection is appended once, whole. -/
theorem partial_reads_append_once_witness :
    appended
        (recvLoop (initialState none) [received [104, 101], received [108, 10]]).state.effects
      = appended (initialState none).effects ++ [[[104, 101], [108, 10]].flatten] :=
  (partial_reads_append_once (initialState none) [[104, 101], [108, 10]]
    [received [104, 101], received [108, 10]] (holds_initialState none)
    (forall₂_received [[104, 101], [108, 10]]) (by decide) (by decide) (by decide)
    (by decide) (by intro c hc; cases hc; decide)).2.1

/-- C5 (witness): the packet `"a\n"` received with `"x\n"` in the log. -/
theorem append_then_echo_witness :
    ∃ s', iteration runningServer (received [97, 10]) = Outcome.next s' ∧
      s'.log = some [120, 10, 97, 10] ∧
      sentBytes s'.effects = [120, 10, 97, 10] := by
  obtain ⟨s', hit, _, _, _, _, _, _⟩ :=
    step_complete runningServer [] (received [97, 10]) [97, 10] (delivers_received _) rfl
      (holds_of_empty _ rfl rfl) (by decide) (by simp) (by decide) (by decide) (by decide)
      (by decide)
  have hA : appended s'.effects = appended runningServer.effects ++ [[97, 10]] := by
    have := step_complete_appended runningServer [] (received [97, 10]) [97, 10]
      (delivers_received _) (holds_of_empty _ rfl rfl) (by decide) (by simp) (by decide)
      (by decide) (by decide) (by decide)
    rw [hit] at this
    exact this
  have h := append_then_echo runningServer s' (received [97, 10]) [97, 10] hit hA
  exact ⟨s', hit, h.1, h.2.2.2.2.1⟩

end AesdSocket
